import Mathlib

/-!
Verification of the request-interpretation layer of the serverless image
handler (`source/image-handler/image-request.js`).

The JavaScript class `ImageRequest` is shallowly embedded: each method becomes
a Lean function, process-wide environment reads become an explicit `Config`
record, the S3 collaborator and the JS `RegExp` / `Date#toUTCString` builtins
become function parameters, and thrown error objects become the `Except JErr`
error monad.  JS strings are modelled by Lean `String` (lists of Unicode
scalar values); byte-level stages (`Buffer`) work on `List Nat`.
-/

/-- Structured error object thrown by the interpreter: HTTP `status`,
machine-readable `code`, human-readable `message`. -/
structure JErr where
  status : Nat
  code : String
  message : String
deriving DecidableEq

/-- Process-wide configuration read from the environment by
`image-request.js`; each field is `none` when the variable is unset. -/
structure Config where
  PATH_PREFIX : Option String
  SOURCE_BUCKETS : Option String
  AUTO_WEBP : Option String
deriving DecidableEq

/-- The `queryStringParameters` mapping of the Lambda event; the code reads
only its `edits` key. -/
structure QueryParams where
  edits : Option String
deriving DecidableEq

/-- The `headers` mapping of the Lambda event; the code reads only
`headers.Accept`. -/
structure Headers where
  Accept : Option String
deriving DecidableEq

/-- The inbound Lambda event as consumed by `ImageRequest`. -/
structure Event where
  path : String
  queryStringParameters : Option QueryParams
  headers : Headers
deriving DecidableEq

/-- Decidable equality for `Except`, used to evaluate the interpreter on
concrete requests. -/
instance {ε α : Type} [DecidableEq ε] [DecidableEq α] : DecidableEq (Except ε α) := fun a b =>
  match a, b with
  | .ok x, .ok y =>
    if h : x = y then isTrue (by rw [h]) else isFalse (by intro hh; cases hh; exact h rfl)
  | .error x, .error y =>
    if h : x = y then isTrue (by rw [h]) else isFalse (by intro hh; cases hh; exact h rfl)
  | .ok _, .error _ => isFalse (by intro h; cases h)
  | .error _, .ok _ => isFalse (by intro h; cases h)

/-! ### JS string primitives

`String.prototype.split` with a one-character separator (the code only splits
on "/", "#", "?" and ","), `Array.prototype.join`, and prefix tests are
implemented by structural recursion on the character list so that all
definitions evaluate inside the kernel. -/

/-- JS `split` on a one-character separator: `"".split(sep)` is `[""]`, and a
leading/trailing separator yields a leading/trailing empty segment. -/
def jsSplitChar (sep : Char) : List Char → List (List Char)
  | [] => [[]]
  | c :: cs =>
    if c = sep then [] :: jsSplitChar sep cs
    else
      match jsSplitChar sep cs with
      | [] => [[c]]
      | g :: gs => (c :: g) :: gs

/-- JS `s.split(sep)` for a one-character separator, on `String`. -/
def jsSplit (sep : Char) (s : String) : List String :=
  (jsSplitChar sep s.data).map String.mk

/-- JS `Array.prototype.join(sep)` (on a list of strings). -/
def jsJoin (sep : String) : List String → String
  | [] => ""
  | [s] => s
  | s :: rest => s ++ sep ++ jsJoin sep rest

/-- Boolean prefix test on character lists. -/
def charsIsPre : List Char → List Char → Bool
  | [], _ => true
  | _ :: _, [] => false
  | p :: ps, c :: cs => p == c && charsIsPre ps cs

/-- Drop the first `n` characters of a string. -/
def strDropN (s : String) (n : Nat) : String :=
  String.mk (s.data.drop n)

/-- JS whitespace class `\s` restricted to the characters that can occur in a
`SOURCE_BUCKETS` environment value (space, tab, CR, LF, VT, FF, NBSP). -/
def isJsWs (c : Char) : Bool :=
  c == ' ' || c == '\t' || c == '\n' || c == '\r' ||
  c == Char.ofNat 11 || c == Char.ofNat 12 || c == Char.ofNat 160

/-- JS `s.replace(/\s+/g, '')`: remove every whitespace character. -/
def stripAllWs (s : String) : String :=
  String.mk (s.data.filter (fun c => !isJsWs c))

/-! ### The thrown error objects -/

/-- Error thrown by `getAllowedSourceBuckets` when `SOURCE_BUCKETS` is
unset. -/
def noSourceBucketsErr : JErr :=
  { status := 400, code := "GetAllowedSourceBuckets::NoSourceBuckets",
    message := "The SOURCE_BUCKETS variable could not be read. Please check that it is not empty and contains at least one source bucket, or multiple buckets separated by commas. Spaces can be provided between commas and bucket names, these will be automatically parsed out when decoding." }

/-- Error thrown by `parseImageBucket` when the candidate bucket is not
whitelisted. -/
def cannotAccessBucketErr : JErr :=
  { status := 403, code := "ImageBucket::CannotAccessBucket",
    message := "The bucket you specified could not be accessed. Please check that the bucket is specified in your SOURCE_BUCKETS." }

/-- Error thrown by `parseImageBucket` for a non-Default request type. -/
def cannotFindBucketErr : JErr :=
  { status := 404, code := "ImageBucket::CannotFindBucket",
    message := "The bucket you specified could not be found. Please check the spelling of the bucket name in your request." }

/-- Error thrown by `parseImageKey` when the resolved key is empty. -/
def cannotFindImageErr : JErr :=
  { status := 404, code := "ImageEdits::CannotFindImage",
    message := "The image you specified could not be found. Please check your request syntax as well as the bucket you specified to ensure it exists." }

/-- Error thrown by `parseImageEdits` for a non-Default request type. -/
def cannotParseEditsErr : JErr :=
  { status := 400, code := "ImageEdits::CannotParseEdits",
    message := "The edits you provided could not be parsed. Please check the syntax of your request and refer to the documentation for additional guidance." }

/-- Error thrown by `decodeRequest` when the decoded payload fails JSON
parsing. -/
def cannotDecodeRequestErr : JErr :=
  { status := 400, code := "DecodeRequest::CannotDecodeRequest",
    message := "The image request you provided could not be decoded. Please check that your request is base64 encoded properly and refer to the documentation for additional guidance." }

/-! ### The embedded `ImageRequest` methods -/

/-- `ImageRequest.parseRequestType`: the classifier always returns
`'Default'`. -/
def parseRequestType (_event : Event) : String :=
  "Default"

/-- `ImageRequest.removePathPrefix`: JS builds
`new RegExp('^(' + process.env.PATH_PREFIX + ')')` and replaces its match with
the empty string.  When the variable is unset, JS template interpolation
inserts the literal text "undefined".  Modelled for metacharacter-free
patterns: the pattern text is stripped when it heads the path, otherwise the
path is unchanged (an empty pattern matches the empty string at the start, a
no-op, exactly as in JS). -/
def removePathPrefix (cfg : Config) (path : String) : String :=
  let p := cfg.PATH_PREFIX.getD "undefined"
  if charsIsPre p.data path.data then strDropN path p.data.length else path

/-- `ImageRequest.getAllowedSourceBuckets`: throws a 400 configuration error
when `SOURCE_BUCKETS` is unset, otherwise removes all whitespace and splits on
commas. -/
def getAllowedSourceBuckets (cfg : Config) : Except JErr (List String) :=
  match cfg.SOURCE_BUCKETS with
  | none => .error noSourceBucketsErr
  | some sourceBuckets => .ok (jsSplit ',' (stripAllWs sourceBuckets))

/-- `ImageRequest.parseImageBucket`.  The parameter `rmatch` is the JS
`RegExp` engine: `rmatch pat s` is the truthiness of `s.match(new
RegExp(pat))`; the code calls it with the pattern
`'^' + sourceBuckets[0] + '$'`. -/
def parseImageBucket (rmatch : String → String → Bool) (cfg : Config)
    (event : Event) (requestType : String) : Except JErr String :=
  if requestType = "Default" then
    let path := removePathPrefix cfg event.path
    let bucket := (jsSplit '/' path).headD ""
    if bucket ≠ "" then
      match getAllowedSourceBuckets cfg with
      | .error e => .error e
      | .ok sourceBuckets =>
        if sourceBuckets.contains bucket
            || rmatch ("^" ++ sourceBuckets.headD "" ++ "$") bucket then
          .ok bucket
        else
          .error cannotAccessBucketErr
    else
      match getAllowedSourceBuckets cfg with
      | .error e => .error e
      | .ok sourceBuckets => .ok (sourceBuckets.headD "")
  else
    .error cannotFindBucketErr

/-- `ImageRequest.parseImageKey`: strip the path prefix, cut at `#`, then at
`?`, drop the first `/`-segment, rejoin with `/`; an empty key is a 404. -/
def parseImageKey (cfg : Config) (event : Event) (requestType : String) :
    Except JErr String :=
  let key :=
    if requestType = "Default" then
      let path := removePathPrefix cfg event.path
      let cleanPath := (jsSplit '#' path).headD ""
      let cleanPath := (jsSplit '?' cleanPath).headD ""
      jsJoin "/" ((jsSplit '/' cleanPath).drop 1)
    else ""
  if key = "" then
    .error cannotFindImageErr
  else
    .ok key

/-! ### JSON values

`JSON.parse` / `JSON.stringify` work on structured data; numbers are modelled
by integers (the edit payloads use integral quality/size values), strings by
Lean `String` (Unicode scalar values, as JS well-formed text). -/

mutual

/-- Structured (JSON-like) data.  Arrays and objects hold their children
through the mutual types `JsonArr` / `JsonObj` (insertion-ordered member
lists), keeping every recursion structural. -/
inductive Json where
  | null : Json
  | bool (b : Bool) : Json
  | num (n : Int) : Json
  | str (s : String) : Json
  | arr (elems : JsonArr) : Json
  | obj (members : JsonObj) : Json
deriving DecidableEq

/-- List of JSON array elements. -/
inductive JsonArr where
  | nil : JsonArr
  | cons (hd : Json) (tl : JsonArr) : JsonArr
deriving DecidableEq

/-- Insertion-ordered list of JSON object members. -/
inductive JsonObj where
  | nil : JsonObj
  | cons (k : String) (v : Json) (tl : JsonObj) : JsonObj
deriving DecidableEq

end

/-- The member keys of a JSON object, in order. -/
def jsObjKeys : JsonObj → List String
  | .nil => []
  | .cons k _ tl => k :: jsObjKeys tl

/-- Look up a member value (first match). -/
def jsObjGet : JsonObj → String → Option Json
  | .nil, _ => none
  | .cons k v tl, key => if k = key then some v else jsObjGet tl key

/-- JS property write `obj[key] = v`: overwrite in place when the key exists,
else append at the end. -/
def jsObjSet : JsonObj → String → Json → JsonObj
  | .nil, key, v => .cons key v .nil
  | .cons k w tl, key, v =>
    if k = key then .cons k v tl else .cons k w (jsObjSet tl key v)

/-- JS `delete obj[key]`. -/
def jsObjDelete : JsonObj → String → JsonObj
  | .nil, _ => .nil
  | .cons k v tl, key =>
    if k = key then jsObjDelete tl key else .cons k v (jsObjDelete tl key)

/-- Convert an explicit member list into a `JsonObj` (used to write concrete
objects in statements). -/
def jsObjOfList : List (String × Json) → JsonObj
  | [] => .nil
  | (k, v) :: rest => .cons k v (jsObjOfList rest)

/-- Member list view of a JSON object. -/
def jsObjToList : JsonObj → List (String × Json)
  | .nil => []
  | .cons k v tl => (k, v) :: jsObjToList tl

/-- Whether a key is present. -/
def jsObjHas : JsonObj → String → Bool
  | .nil, _ => false
  | .cons k _ tl, key => k == key || jsObjHas tl key

/-- All keys pairwise distinct. -/
def jsObjFresh : JsonObj → Bool
  | .nil => true
  | .cons k _ tl => !jsObjHas tl k && jsObjFresh tl

mutual

/-- Node-count measure of a JSON value (bounds the parser fuel). -/
def jsize : Json → Nat
  | .null => 1
  | .bool _ => 1
  | .num _ => 1
  | .str _ => 1
  | .arr xs => jsizeElems xs + 1
  | .obj kvs => jsizeMembers kvs + 1

/-- See `jsize`. -/
def jsizeElems : JsonArr → Nat
  | .nil => 0
  | .cons x tl => jsize x + 1 + jsizeElems tl

/-- See `jsize`. -/
def jsizeMembers : JsonObj → Nat
  | .nil => 0
  | .cons _ v tl => jsize v + 1 + jsizeMembers tl

end

mutual

/-- Well-formedness of structured data as a JS value: every object in it has
pairwise-distinct keys (a JS object can never hold duplicate keys). -/
def jsonWfB : Json → Bool
  | .null => true
  | .bool _ => true
  | .num _ => true
  | .str _ => true
  | .arr xs => jsonWfArr xs
  | .obj kvs => jsObjFresh kvs && jsonWfObj kvs

/-- See `jsonWfB`. -/
def jsonWfArr : JsonArr → Bool
  | .nil => true
  | .cons x tl => jsonWfB x && jsonWfArr tl

/-- See `jsonWfB`. -/
def jsonWfObj : JsonObj → Bool
  | .nil => true
  | .cons _ v tl => jsonWfB v && jsonWfObj tl

end

/-- Convert array elements from an explicit list. -/
def jsArrOfList : List Json → JsonArr
  | [] => .nil
  | x :: rest => .cons x (jsArrOfList rest)

/-! ### Character-level facts -/

/-- Unicode scalar values are below 0x110000 and never surrogates. -/
theorem char_valid_facts (c : Char) :
    c.toNat < 1114112 ∧ ¬(55296 ≤ c.toNat ∧ c.toNat ≤ 57343) := by
  have h : Nat.isValidChar c.toNat := c.valid
  rcases h with h | ⟨h1, h2⟩ <;> exact ⟨by omega, by omega⟩

/-- `Char.toNat` is injective. -/
theorem char_toNat_inj (a b : Char) (h : a.toNat = b.toNat) : a = b := by
  have ha := Char.ofNat_toNat a
  have hb := Char.ofNat_toNat b
  rw [← ha, ← hb, h]

/-- `Char.ofNat` of a valid scalar value has that value. -/
theorem char_toNat_ofNat (n : Nat) (h : Nat.isValidChar n) : (Char.ofNat n).toNat = n := by
  unfold Char.ofNat
  rw [dif_pos h]
  rfl

/-- The character order is the scalar-value order. -/
theorem char_le_toNat (a b : Char) : a ≤ b ↔ a.toNat ≤ b.toNat := Iff.rfl

/-! ### Base64 (JS `Buffer.from(s, 'base64')` and its inverse)

The decoder is Node-style forgiving: characters outside the alphabet
(including `=` padding) are skipped, then sextets are grouped — 4 sextets to
3 bytes, a trailing 3 to 2 bytes, a trailing 2 to 1 byte, a lone trailing
sextet dropped. -/

/-- Base64 alphabet: the character for sextet `n < 64`. -/
def b64chr (n : Nat) : Char :=
  if n < 26 then Char.ofNat (65 + n)
  else if n < 52 then Char.ofNat (97 + (n - 26))
  else if n < 62 then Char.ofNat (48 + (n - 52))
  else if n = 62 then '+'
  else '/'

/-- Base64 alphabet: the sextet for a character, `none` off-alphabet. -/
def b64val (c : Char) : Option Nat :=
  if 'A' ≤ c ∧ c ≤ 'Z' then some (c.toNat - 65)
  else if 'a' ≤ c ∧ c ≤ 'z' then some (c.toNat - 97 + 26)
  else if '0' ≤ c ∧ c ≤ '9' then some (c.toNat - 48 + 52)
  else if c = '+' then some 62
  else if c = '/' then some 63
  else none

/-- Standard padded base64 of a byte list. -/
def b64encode : List Nat → List Char
  | a :: b :: c :: rest =>
    b64chr (a / 4) :: b64chr ((a % 4) * 16 + b / 16) ::
    b64chr ((b % 16) * 4 + c / 64) :: b64chr (c % 64) :: b64encode rest
  | [a, b] => [b64chr (a / 4), b64chr ((a % 4) * 16 + b / 16), b64chr ((b % 16) * 4), '=']
  | [a] => [b64chr (a / 4), b64chr ((a % 4) * 16), '=', '=']
  | [] => []

/-- Regroup decoded sextets into bytes. -/
def b64group : List Nat → List Nat
  | a :: b :: c :: d :: rest =>
    (a * 4 + b / 16) :: ((b % 16) * 16 + c / 4) :: ((c % 4) * 64 + d) :: b64group rest
  | [a, b] => [a * 4 + b / 16]
  | [a, b, c] => [a * 4 + b / 16, (b % 16) * 16 + c / 4]
  | _ => []

/-- Forgiving base64 decode of a character list to bytes. -/
def b64decode (s : List Char) : List Nat :=
  b64group (s.filterMap b64val)

/-! ### UTF-8 (JS `Buffer#toString()` and the encoding of JS strings) -/

/-- The replacement character U+FFFD emitted by lossy decoding. -/
def replChar : Char := Char.ofNat 65533

/-- UTF-8 encoding of one scalar value. -/
def utf8EncodeChar (c : Char) : List Nat :=
  if c.toNat < 128 then [c.toNat]
  else if c.toNat < 2048 then [192 + c.toNat / 64, 128 + c.toNat % 64]
  else if c.toNat < 65536 then
    [224 + c.toNat / 4096, 128 + (c.toNat / 64) % 64, 128 + c.toNat % 64]
  else
    [240 + c.toNat / 262144, 128 + (c.toNat / 4096) % 64, 128 + (c.toNat / 64) % 64,
     128 + c.toNat % 64]

/-- UTF-8 encoding of a character list. -/
def utf8Encode (s : List Char) : List Nat :=
  (s.map utf8EncodeChar).flatten

/-- Decode one UTF-8 sequence from a lead byte and the remaining input,
lossily (as in `Buffer#toString()`): a well-formed sequence yields its scalar
value and the input after it; overlong forms, surrogate encodings, stray or
missing continuation bytes and out-of-range leads yield U+FFFD and resume
after the lead byte. -/
def utf8Decode1 (b : Nat) (bs : List Nat) : Char × List Nat :=
  if b < 128 then (Char.ofNat b, bs)
  else if b < 194 then (replChar, bs)
  else if b < 224 then
    match bs with
    | b2 :: bs2 =>
      if 128 ≤ b2 ∧ b2 < 192 then
        (Char.ofNat ((b - 192) * 64 + (b2 - 128)), bs2)
      else (replChar, b2 :: bs2)
    | [] => (replChar, [])
  else if b < 240 then
    match bs with
    | b2 :: b3 :: bs3 =>
      if (128 ≤ b2 ∧ b2 < 192) ∧ (128 ≤ b3 ∧ b3 < 192) ∧
          ¬(b = 224 ∧ b2 < 160) ∧ ¬(b = 237 ∧ 160 ≤ b2) then
        (Char.ofNat ((b - 224) * 4096 + (b2 - 128) * 64 + (b3 - 128)), bs3)
      else (replChar, bs)
    | _ => (replChar, bs)
  else if b < 245 then
    match bs with
    | b2 :: b3 :: b4 :: bs4 =>
      if (128 ≤ b2 ∧ b2 < 192) ∧ (128 ≤ b3 ∧ b3 < 192) ∧ (128 ≤ b4 ∧ b4 < 192) ∧
          ¬(b = 240 ∧ b2 < 144) ∧ ¬(b = 244 ∧ 144 ≤ b2) then
        (Char.ofNat ((b - 240) * 262144 + (b2 - 128) * 4096 + (b3 - 128) * 64 + (b4 - 128)), bs4)
      else (replChar, bs)
    | _ => (replChar, bs)
  else (replChar, bs)

/-- Decoding driver: one sequence per step.  Every step consumes at least the
lead byte, so fuel equal to the byte count never runs out. -/
def utf8DecodeGo : Nat → List Nat → List Char
  | 0, _ => []
  | _ + 1, [] => []
  | f + 1, b :: bs =>
    let (c, rest) := utf8Decode1 b bs
    c :: utf8DecodeGo f rest

/-- Lossy UTF-8 decoding of a whole byte list (JS `Buffer#toString()`). -/
def utf8DecodeLossy (l : List Nat) : List Char :=
  utf8DecodeGo l.length l

/-! ### `JSON.stringify` -/

/-- Left brace and right brace characters. -/
def lbrace : Char := Char.ofNat 123

/-- See `lbrace`. -/
def rbrace : Char := Char.ofNat 125

/-- Lower-case hex digit for `n < 16`. -/
def hexDigitChr (n : Nat) : Char :=
  if n < 10 then Char.ofNat (48 + n) else Char.ofNat (87 + n)

/-- `JSON.stringify` escaping of one string character: quote and backslash
escaped, the named control escapes, `\u00XX` for other control characters,
everything else verbatim. -/
def qcharJSON (c : Char) : List Char :=
  if c = '"' then ['\\', '"']
  else if c = '\\' then ['\\', '\\']
  else if c.toNat = 8 then ['\\', 'b']
  else if c.toNat = 9 then ['\\', 't']
  else if c.toNat = 10 then ['\\', 'n']
  else if c.toNat = 12 then ['\\', 'f']
  else if c.toNat = 13 then ['\\', 'r']
  else if c.toNat < 32 then ['\\', 'u', '0', '0', hexDigitChr (c.toNat / 16), hexDigitChr (c.toNat % 16)]
  else [c]

/-- `JSON.stringify` of a string: quoted and escaped. -/
def qstr (s : String) : List Char :=
  '"' :: (s.data.map qcharJSON).flatten ++ ['"']

/-- Decimal digits of a natural number, most significant first; the fuel
(any bound above the digit count, `n + 1` suffices) keeps the recursion
structural. -/
def natToCharsAux : Nat → Nat → List Char
  | 0, _ => []
  | f + 1, n =>
    if n < 10 then [Char.ofNat (48 + n)]
    else natToCharsAux f (n / 10) ++ [Char.ofNat (48 + n % 10)]

/-- Decimal digits of a natural number, most significant first. -/
def natToChars (n : Nat) : List Char :=
  natToCharsAux (n + 1) n

/-- Decimal rendering of an integer. -/
def intToChars (i : Int) : List Char :=
  if i < 0 then '-' :: natToChars i.natAbs else natToChars i.natAbs

mutual

/-- `JSON.stringify` (no indentation, insertion order preserved). -/
def stringify : Json → List Char
  | .null => "null".data
  | .bool true => "true".data
  | .bool false => "false".data
  | .num i => intToChars i
  | .str s => qstr s
  | .arr xs => '[' :: stringifyElems xs ++ [']']
  | .obj kvs => lbrace :: stringifyMembers kvs ++ [rbrace]

/-- Comma-separated renderings of array elements. -/
def stringifyElems : JsonArr → List Char
  | .nil => []
  | .cons x .nil => stringify x
  | .cons x tl => stringify x ++ ',' :: stringifyElems tl

/-- Comma-separated `"key":value` renderings of object members. -/
def stringifyMembers : JsonObj → List Char
  | .nil => []
  | .cons k v .nil => qstr k ++ ':' :: stringify v
  | .cons k v tl => qstr k ++ ':' :: stringify v ++ ',' :: stringifyMembers tl

end

/-! ### `JSON.parse`

A recursive-descent parser with a step-count fuel.  Deviations from full
`JSON.parse`, irrelevant to the verified claims: numbers are integral
(fractional or exponent forms fail to parse instead of producing floats) and
`\uXXXX` escapes denote scalar values directly (no surrogate-pair
combination). -/

/-- JSON insignificant whitespace. -/
def jsonWs (c : Char) : Bool :=
  c = ' ' || c = '\t' || c = '\n' || c = '\r'

/-- Drop leading JSON whitespace. -/
def skipWs : List Char → List Char
  | [] => []
  | c :: cs => if jsonWs c then skipWs cs else c :: cs

/-- Hex digit value of a character. -/
def hexVal (c : Char) : Option Nat :=
  if '0' ≤ c ∧ c ≤ '9' then some (c.toNat - 48)
  else if 'a' ≤ c ∧ c ≤ 'f' then some (c.toNat - 87)
  else if 'A' ≤ c ∧ c ≤ 'F' then some (c.toNat - 55)
  else none

/-- Prepend a character to the string part of a string-parser result. -/
def pushChar (c : Char) : Option (List Char × List Char) → Option (List Char × List Char)
  | none => none
  | some (s, r) => some (c :: s, r)

/-- Parse the remainder of a JSON string literal (after the opening quote),
returning its characters and the input after the closing quote. -/
def parseStrChars : List Char → Option (List Char × List Char)
  | [] => none
  | c :: rest =>
    if c = '"' then some ([], rest)
    else if c = '\\' then
      match rest with
      | [] => none
      | e :: rest2 =>
        if e = '"' then pushChar '"' (parseStrChars rest2)
        else if e = '\\' then pushChar '\\' (parseStrChars rest2)
        else if e = '/' then pushChar '/' (parseStrChars rest2)
        else if e = 'b' then pushChar (Char.ofNat 8) (parseStrChars rest2)
        else if e = 'f' then pushChar (Char.ofNat 12) (parseStrChars rest2)
        else if e = 'n' then pushChar (Char.ofNat 10) (parseStrChars rest2)
        else if e = 'r' then pushChar (Char.ofNat 13) (parseStrChars rest2)
        else if e = 't' then pushChar (Char.ofNat 9) (parseStrChars rest2)
        else if e = 'u' then
          match rest2 with
          | h1 :: h2 :: h3 :: h4 :: rest3 =>
            match hexVal h1, hexVal h2, hexVal h3, hexVal h4 with
            | some x1, some x2, some x3, some x4 =>
              pushChar (Char.ofNat (x1 * 4096 + x2 * 256 + x3 * 16 + x4)) (parseStrChars rest3)
            | _, _, _, _ => none
          | _ => none
        else none
    else if c.toNat < 32 then none
    else pushChar c (parseStrChars rest)

/-- Decimal digit test. -/
def isDigitChr (c : Char) : Bool :=
  decide ('0' ≤ c) && decide (c ≤ '9')

/-- No leading decimal digit (used to delimit greedy number parsing). -/
def noDigitHead : List Char → Bool
  | [] => true
  | c :: _ => !isDigitChr c

/-- Greedily consume decimal digits, accumulating their value. -/
def parseDigits (acc : Nat) : List Char → Nat × List Char
  | [] => (acc, [])
  | c :: cs =>
    if isDigitChr c then parseDigits (acc * 10 + (c.toNat - 48)) cs
    else (acc, c :: cs)

/-- Build the object produced by `JSON.parse` from the parsed member list:
each member is written in order with the JS property write, so later
duplicates overwrite earlier ones in place. -/
def buildObj (kvs : List (String × Json)) : JsonObj :=
  kvs.foldl (fun acc kv => jsObjSet acc kv.1 kv.2) .nil

mutual

/-- Parse one JSON value, returning it and the rest of the input. -/
def parseVal : Nat → List Char → Option (Json × List Char)
  | 0, _ => none
  | f + 1, s =>
    match skipWs s with
    | [] => none
    | c :: cs =>
      if c = 'n' then
        match cs with
        | c1 :: c2 :: c3 :: r =>
          if c1 = 'u' ∧ c2 = 'l' ∧ c3 = 'l' then some (.null, r) else none
        | _ => none
      else if c = 't' then
        match cs with
        | c1 :: c2 :: c3 :: r =>
          if c1 = 'r' ∧ c2 = 'u' ∧ c3 = 'e' then some (.bool true, r) else none
        | _ => none
      else if c = 'f' then
        match cs with
        | c1 :: c2 :: c3 :: c4 :: r =>
          if c1 = 'a' ∧ c2 = 'l' ∧ c3 = 's' ∧ c4 = 'e' then some (.bool false, r) else none
        | _ => none
      else if c = '"' then
        match parseStrChars cs with
        | some (cs2, r) => some (.str (String.mk cs2), r)
        | none => none
      else if c = '[' then
        match skipWs cs with
        | [] => none
        | c2 :: r =>
          if c2 = ']' then some (.arr .nil, r)
          else
            match parseElems f (c2 :: r) with
            | some (xs, r2) => some (.arr xs, r2)
            | none => none
      else if c = lbrace then
        match skipWs cs with
        | [] => none
        | c2 :: r =>
          if c2 = rbrace then some (.obj .nil, r)
          else
            match parseMembers f (c2 :: r) with
            | some (kvs, r2) => some (.obj (buildObj kvs), r2)
            | none => none
      else if c = '-' then
        match cs with
        | d :: _ =>
          if isDigitChr d then
            let (m, r) := parseDigits 0 cs
            some (.num (-(m : Int)), r)
          else none
        | [] => none
      else if isDigitChr c then
        let (m, r) := parseDigits 0 (c :: cs)
        some (.num (m : Int), r)
      else none

/-- Parse the elements of a non-empty JSON array (after `[`), including the
closing bracket. -/
def parseElems : Nat → List Char → Option (JsonArr × List Char)
  | 0, _ => none
  | f + 1, s =>
    match parseVal f s with
    | none => none
    | some (v, r) =>
      match skipWs r with
      | [] => none
      | c :: r2 =>
        if c = ',' then
          match parseElems f r2 with
          | some (vs, r3) => some (.cons v vs, r3)
          | none => none
        else if c = ']' then some (.cons v .nil, r2)
        else none

/-- Parse the members of a non-empty JSON object (after the opening brace),
including the closing brace. -/
def parseMembers : Nat → List Char → Option (List (String × Json) × List Char)
  | 0, _ => none
  | f + 1, s =>
    match skipWs s with
    | [] => none
    | c :: cs =>
      if c = '"' then
        match parseStrChars cs with
        | none => none
        | some (k, r) =>
          match skipWs r with
          | [] => none
          | c2 :: r2 =>
            if c2 = ':' then
              match parseVal f r2 with
              | none => none
              | some (v, r3) =>
                match skipWs r3 with
                | [] => none
                | c3 :: r4 =>
                  if c3 = ',' then
                    match parseMembers f r4 with
                    | some (kvs, r5) => some ((String.mk k, v) :: kvs, r5)
                    | none => none
                  else if c3 = rbrace then some ([(String.mk k, v)], r4)
                  else none
            else none
      else none

end

/-- The characters that can begin a `stringify` rendering: keyword heads,
a quote, an opening bracket or brace, a minus sign or a digit. -/
def goodHead (c : Char) : Prop :=
  c = 'n' ∨ c = 't' ∨ c = 'f' ∨ c = '"' ∨ c = '[' ∨ c = lbrace ∨ c = '-' ∨ isDigitChr c = true

/-- `JSON.parse`: parse one value, then allow only trailing whitespace. -/
def jsonParse (s : List Char) : Option Json :=
  match parseVal (s.length + 1) s with
  | some (v, r) =>
    match skipWs r with
    | [] => some v
    | _ => none
  | none => none

/-! ### Derived views of the key computation -/

/-- The cleaned path computed by `parseImageKey` for a Default request: path
prefix stripped, then cut at the first `#`, then at the first `?`. -/
def cleanedPath (cfg : Config) (ev : Event) : String :=
  (jsSplit '?' ((jsSplit '#' (removePathPrefix cfg ev.path)).headD "")).headD ""

/-- The key computed by `parseImageKey` before the emptiness check: first
`/`-segment of the cleaned path dropped, remainder rejoined with `/`. -/
def resolvedKey (cfg : Config) (ev : Event) : String :=
  jsJoin "/" ((jsSplit '/' (cleanedPath cfg ev)).drop 1)

/-! ### Concrete fixtures used by witnesses and counterexamples -/

/-- A RegExp engine for metacharacter-free patterns of the form `^text$`: the
subject matches exactly when it equals `text`. -/
def litMatch (pat s : String) : Bool := pat == "^" ++ s ++ "$"

/-- Configuration with an empty (no-op) path-prefix pattern and the two-bucket
whitelist "alpha,beta". -/
def cfgE : Config := ⟨some "", some "alpha,beta", none⟩

/-- Same whitelist, with `PATH_PREFIX = "/"` so that stripping the prefix
removes a path's leading slash. -/
def cfgS : Config := ⟨some "/", some "alpha,beta", none⟩

/-- Event with the given path, no query parameters and no Accept header. -/
def evP (p : String) : Event := ⟨p, none, ⟨none⟩⟩

/-! ### Claims about bucket, key and whitelist resolution -/

/-- C9, counterexample: an empty (but set) `SOURCE_BUCKETS` string does NOT
fail — it yields the single-empty-entry whitelist `[""]` — and whitespace
removal is global (interior whitespace is deleted too), not merely
"surrounding whitespace stripped". -/
theorem c9_counterexample :
    getAllowedSourceBuckets ⟨none, some "", none⟩ = .ok [""] ∧
    getAllowedSourceBuckets ⟨none, some " my bucket , b", none⟩ = .ok ["mybucket", "b"] := by
  decide

/-- C9, amended: reading the whitelist fails with the 400 ConfigurationError
exactly when `SOURCE_BUCKETS` is unset; whenever it is set — even to the empty
string — it returns the configured string with every whitespace character
removed, split on commas. -/
theorem c9_whitelist_read :
    (∀ p a, getAllowedSourceBuckets ⟨p, none, a⟩ = .error noSourceBucketsErr ∧
      noSourceBucketsErr.status = 400) ∧
    (∀ p a s, getAllowedSourceBuckets ⟨p, some s, a⟩ = .ok (jsSplit ',' (stripAllWs s))) :=
  ⟨fun _ _ => ⟨rfl, rfl⟩, fun _ _ _ => rfl⟩

/-- C2, counterexample: with the whitelist `["alpha", "beta"]` and a no-op
path prefix, the path `"/beta/k"` — whose bucket `"beta"` is a whitelist
member per the claim — resolves to the default bucket `"alpha"`, not to
`"beta"`: the leading slash makes the first `/`-segment empty. -/
theorem c2_counterexample :
    getAllowedSourceBuckets cfgE = .ok ["alpha", "beta"] ∧
    parseImageBucket litMatch cfgE (evP "/beta/k") "Default" = .ok "alpha" := by
  decide

/-- C2, amended: for a Default request whose path after prefix stripping has a
non-empty first segment `b` (and a configured whitelist `W`), bucket
resolution returns `b` iff `b` is a whitelist member or matches the first
entry anchored as a regular expression, and otherwise fails with the 403
AccessDenied error; in particular every `b ∈ W` placed as the first stripped
segment resolves to `b`.  (A path `"/b/key"` whose leading slash survives
prefix stripping has an EMPTY first segment and resolves to the default
bucket `W[0]` instead.) -/
theorem c2_default_bucket_resolution (rmatch : String → String → Bool)
    (cfg : Config) (ev : Event) (W : List String) (b : String)
    (hW : getAllowedSourceBuckets cfg = .ok W)
    (hb : (jsSplit '/' (removePathPrefix cfg ev.path)).headD "" = b)
    (hne : b ≠ "") :
    (parseImageBucket rmatch cfg ev "Default" = .ok b ↔
       (W.contains b || rmatch ("^" ++ W.headD "" ++ "$") b) = true) ∧
    ((W.contains b || rmatch ("^" ++ W.headD "" ++ "$") b) = false →
       parseImageBucket rmatch cfg ev "Default" = .error cannotAccessBucketErr) ∧
    (b ∈ W → parseImageBucket rmatch cfg ev "Default" = .ok b) := by
  unfold parseImageBucket
  simp only [reduceIte]
  rw [hb, hW, if_pos hne]
  cases hcond : (W.contains b || rmatch ("^" ++ W.headD "" ++ "$") b) with
  | true =>
    simp
    refine ⟨fun hnmem => ?_, fun hmem hnmem => absurd hmem hnmem⟩
    have hd := hcond
    simp at hd
    rcases hd with hmem | hr
    · exact absurd hmem hnmem
    · exact hr
  | false =>
    simp at hcond ⊢
    exact ⟨hcond, fun hmem hnmem => absurd hmem hnmem⟩

/-- C2, witness: the amended theorem evaluated at the whitelist
`["alpha", "beta"]` and the path `"beta/k"` whose first stripped segment is
the member bucket `"beta"`. -/
theorem c2_witness :
    (parseImageBucket litMatch cfgE (evP "beta/k") "Default" = .ok "beta" ↔
       ((["alpha", "beta"] : List String).contains "beta"
         || litMatch ("^" ++ (["alpha", "beta"] : List String).headD "" ++ "$") "beta") = true) ∧
    (((["alpha", "beta"] : List String).contains "beta"
         || litMatch ("^" ++ (["alpha", "beta"] : List String).headD "" ++ "$") "beta") = false →
       parseImageBucket litMatch cfgE (evP "beta/k") "Default" = .error cannotAccessBucketErr) ∧
    ("beta" ∈ (["alpha", "beta"] : List String) →
       parseImageBucket litMatch cfgE (evP "beta/k") "Default" = .ok "beta") :=
  c2_default_bucket_resolution litMatch cfgE (evP "beta/k") ["alpha", "beta"] "beta"
    (by decide) (by decide) (by decide)

/-- C8: for a Default request whose path after prefix stripping has an empty
first segment, bucket resolution succeeds with the first entry of the
configured whitelist and raises no error. -/
theorem c8_default_bucket_fallback (rmatch : String → String → Bool)
    (cfg : Config) (ev : Event) (W : List String)
    (hW : getAllowedSourceBuckets cfg = .ok W)
    (hb : (jsSplit '/' (removePathPrefix cfg ev.path)).headD "" = "") :
    parseImageBucket rmatch cfg ev "Default" = .ok (W.headD "") := by
  unfold parseImageBucket
  simp only [reduceIte]
  rw [hb, hW]
  simp

/-- C8, witness: the fallback theorem evaluated at the path `"/"`, whose first
segment after the no-op prefix stripping is empty. -/
theorem c8_witness :
    parseImageBucket litMatch cfgE (evP "/") "Default" =
      .ok ((["alpha", "beta"] : List String).headD "") :=
  c8_default_bucket_fallback litMatch cfgE (evP "/") ["alpha", "beta"]
    (by decide) (by decide)

/-- C4, counterexample: with a no-op path prefix, the path
`"/bucket/a/b/c.png?x=1#frag"` resolves to the key `"bucket/a/b/c.png"` — not
`"a/b/c.png"` as claimed (the dropped first segment is the empty segment
before the leading slash) — and the path `"/bucket"` resolves to the key
`"bucket"` instead of failing with ImageNotFound. -/
theorem c4_counterexample :
    parseImageKey cfgE (evP "/bucket/a/b/c.png?x=1#frag") "Default" = .ok "bucket/a/b/c.png" ∧
    parseImageKey cfgE (evP "/bucket") "Default" = .ok "bucket" := by
  decide

/-- C4, amended: key resolution strips the configured prefix, cuts at `#`
then at `?`, drops the first `/`-segment and rejoins the rest with `/`,
failing with the 404 ImageNotFound error exactly when the resulting key is
empty.  The claim's concrete outcomes (key `"a/b/c.png"` for
`"/bucket/a/b/c.png?x=1#frag"`, failure for `"/bucket"`) hold when the
configured prefix strips the leading slash (here `PATH_PREFIX = "/"`); if the
leading slash survives, the bucket segment is empty, so the key keeps
`"bucket/"` and `"/bucket"` yields the key `"bucket"` without error. -/
theorem c4_default_key_resolution :
    (∀ cfg ev, parseImageKey cfg ev "Default" =
       if resolvedKey cfg ev = "" then .error cannotFindImageErr
       else .ok (resolvedKey cfg ev)) ∧
    cannotFindImageErr.status = 404 ∧
    parseImageKey cfgS (evP "/bucket/a/b/c.png?x=1#frag") "Default" = .ok "a/b/c.png" ∧
    parseImageKey cfgS (evP "/bucket") "Default" = .error cannotFindImageErr := by
  refine ⟨fun cfg ev => ?_, rfl, by decide, by decide⟩
  rfl

/-! ### Base64 round-trip -/

/-- Regrouping two final sextets. -/
theorem b64group_two (x y : Nat) : b64group [x, y] = [x * 4 + y / 16] := rfl

/-- Regrouping three final sextets. -/
theorem b64group_three (x y z : Nat) :
    b64group [x, y, z] = [x * 4 + y / 16, (y % 16) * 16 + z / 4] := rfl

/-- The base64 alphabet maps are inverse. -/
theorem b64val_b64chr : ∀ v, v < 64 → b64val (b64chr v) = some v := by decide

/-- Padding is skipped by the decoder. -/
theorem b64val_pad : b64val '=' = none := by decide

/-- Decoding inverts encoding on byte lists. -/
theorem b64_roundtrip : ∀ bs : List Nat, (∀ x ∈ bs, x < 256) →
    b64decode (b64encode bs) = bs := by
  intro bs
  induction bs using b64encode.induct with
  | case1 a b c rest ih =>
    intro h
    have ha : a < 256 := h a (by simp)
    have hb : b < 256 := h b (by simp)
    have hc : c < 256 := h c (by simp)
    unfold b64decode at ih ⊢
    simp only [b64encode, List.filterMap_cons,
      b64val_b64chr _ (by omega : a / 4 < 64),
      b64val_b64chr _ (by omega : (a % 4) * 16 + b / 16 < 64),
      b64val_b64chr _ (by omega : (b % 16) * 4 + c / 64 < 64),
      b64val_b64chr _ (by omega : c % 64 < 64)]
    rw [b64group]
    have e1 : (a / 4) * 4 + ((a % 4) * 16 + b / 16) / 16 = a := by omega
    have e2 : (((a % 4) * 16 + b / 16) % 16) * 16 + ((b % 16) * 4 + c / 64) / 4 = b := by omega
    have e3 : (((b % 16) * 4 + c / 64) % 4) * 64 + c % 64 = c := by omega
    rw [e1, e2, e3, ih (fun x hx => h x (by simp [hx]))]
  | case2 a b =>
    intro h
    have ha : a < 256 := h a (by simp)
    have hb : b < 256 := h b (by simp)
    unfold b64decode
    simp only [b64encode, List.filterMap_cons,
      b64val_b64chr _ (by omega : a / 4 < 64),
      b64val_b64chr _ (by omega : (a % 4) * 16 + b / 16 < 64),
      b64val_b64chr _ (by omega : (b % 16) * 4 < 64),
      b64val_pad]
    simp only [List.filterMap_nil]
    rw [b64group_three]
    have e1 : (a / 4) * 4 + ((a % 4) * 16 + b / 16) / 16 = a := by omega
    have e2 : (((a % 4) * 16 + b / 16) % 16) * 16 + ((b % 16) * 4) / 4 = b := by omega
    rw [e1, e2]
  | case3 a =>
    intro h
    have ha : a < 256 := h a (by simp)
    unfold b64decode
    simp only [b64encode, List.filterMap_cons,
      b64val_b64chr _ (by omega : a / 4 < 64),
      b64val_b64chr _ (by omega : (a % 4) * 16 < 64),
      b64val_pad]
    simp only [List.filterMap_nil]
    rw [b64group_two]
    have e1 : (a / 4) * 4 + ((a % 4) * 16) / 16 = a := by omega
    rw [e1]
  | case4 =>
    intro _
    rfl

/-! ### UTF-8 round-trip -/

/-- The decoding driver on the empty byte list. -/
theorem utf8DecodeGo_nil : ∀ f, utf8DecodeGo f [] = [] := by
  intro f
  cases f <;> rfl

/-- One decoding step inverts one character encoding. -/
theorem utf8_go_char (c : Char) (f : Nat) (rest : List Nat) :
    utf8DecodeGo (f + 1) (utf8EncodeChar c ++ rest) = c :: utf8DecodeGo f rest := by
  obtain ⟨hlt, hsur⟩ := char_valid_facts c
  unfold utf8EncodeChar
  by_cases h1 : c.toNat < 128
  · rw [if_pos h1]
    simp only [List.cons_append, List.nil_append]
    rw [utf8DecodeGo]
    unfold utf8Decode1
    rw [if_pos h1, Char.ofNat_toNat]
  · by_cases h2 : c.toNat < 2048
    · rw [if_neg h1, if_pos h2]
      simp only [List.cons_append, List.nil_append]
      rw [utf8DecodeGo]
      unfold utf8Decode1
      have ha : ¬(192 + c.toNat / 64 < 128) := by omega
      have hb : ¬(192 + c.toNat / 64 < 194) := by omega
      have hc : 192 + c.toNat / 64 < 224 := by omega
      have hd : 128 ≤ 128 + c.toNat % 64 ∧ 128 + c.toNat % 64 < 192 := by omega
      simp only [if_neg ha, if_neg hb, if_pos hc, if_pos hd]
      have e : (192 + c.toNat / 64 - 192) * 64 + (128 + c.toNat % 64 - 128) = c.toNat := by omega
      rw [e, Char.ofNat_toNat]
    · by_cases h3 : c.toNat < 65536
      · rw [if_neg h1, if_neg h2, if_pos h3]
        simp only [List.cons_append, List.nil_append]
        rw [utf8DecodeGo]
        unfold utf8Decode1
        have ha : ¬(224 + c.toNat / 4096 < 128) := by omega
        have hb : ¬(224 + c.toNat / 4096 < 194) := by omega
        have hc : ¬(224 + c.toNat / 4096 < 224) := by omega
        have hd : 224 + c.toNat / 4096 < 240 := by omega
        have he : (128 ≤ 128 + c.toNat / 64 % 64 ∧ 128 + c.toNat / 64 % 64 < 192) ∧
            (128 ≤ 128 + c.toNat % 64 ∧ 128 + c.toNat % 64 < 192) ∧
            ¬(224 + c.toNat / 4096 = 224 ∧ 128 + c.toNat / 64 % 64 < 160) ∧
            ¬(224 + c.toNat / 4096 = 237 ∧ 160 ≤ 128 + c.toNat / 64 % 64) := by omega
        simp only [if_neg ha, if_neg hb, if_neg hc, if_pos hd, if_pos he]
        have e : (224 + c.toNat / 4096 - 224) * 4096 + (128 + c.toNat / 64 % 64 - 128) * 64 +
            (128 + c.toNat % 64 - 128) = c.toNat := by omega
        rw [e, Char.ofNat_toNat]
      · rw [if_neg h1, if_neg h2, if_neg h3]
        simp only [List.cons_append, List.nil_append]
        rw [utf8DecodeGo]
        unfold utf8Decode1
        have ha : ¬(240 + c.toNat / 262144 < 128) := by omega
        have hb : ¬(240 + c.toNat / 262144 < 194) := by omega
        have hc : ¬(240 + c.toNat / 262144 < 224) := by omega
        have hd : ¬(240 + c.toNat / 262144 < 240) := by omega
        have he : 240 + c.toNat / 262144 < 245 := by omega
        have hf : (128 ≤ 128 + c.toNat / 4096 % 64 ∧ 128 + c.toNat / 4096 % 64 < 192) ∧
            (128 ≤ 128 + c.toNat / 64 % 64 ∧ 128 + c.toNat / 64 % 64 < 192) ∧
            (128 ≤ 128 + c.toNat % 64 ∧ 128 + c.toNat % 64 < 192) ∧
            ¬(240 + c.toNat / 262144 = 240 ∧ 128 + c.toNat / 4096 % 64 < 144) ∧
            ¬(240 + c.toNat / 262144 = 244 ∧ 144 ≤ 128 + c.toNat / 4096 % 64) := by omega
        simp only [if_neg ha, if_neg hb, if_neg hc, if_neg hd, if_pos he, if_pos hf]
        have e : (240 + c.toNat / 262144 - 240) * 262144 + (128 + c.toNat / 4096 % 64 - 128) * 4096 +
            (128 + c.toNat / 64 % 64 - 128) * 64 + (128 + c.toNat % 64 - 128) = c.toNat := by omega
        rw [e, Char.ofNat_toNat]

/-- Character encodings are never empty. -/
theorem utf8EncodeChar_ne_nil (c : Char) : utf8EncodeChar c ≠ [] := by
  unfold utf8EncodeChar
  split_ifs <;> simp

/-- A string has at least as many encoded bytes as characters. -/
theorem utf8Encode_length_ge (s : List Char) : s.length ≤ (utf8Encode s).length := by
  induction s with
  | nil => simp [utf8Encode]
  | cons c cs ih =>
    have hne := utf8EncodeChar_ne_nil c
    have hpos : 1 ≤ (utf8EncodeChar c).length := by
      cases hE : utf8EncodeChar c
      · exact absurd hE hne
      · simp
    simp only [utf8Encode, List.map_cons, List.flatten_cons, List.length_append,
      List.length_cons] at ih ⊢
    omega

/-- Decoding an encoded string with a continuation. -/
theorem utf8_go_append (s : List Char) : ∀ f (rest : List Nat),
    utf8DecodeGo (s.length + f) (utf8Encode s ++ rest) = s ++ utf8DecodeGo f rest := by
  induction s with
  | nil =>
    intro f rest
    simp [utf8Encode]
  | cons c cs ih =>
    intro f rest
    have hsplit : utf8Encode (c :: cs) ++ rest = utf8EncodeChar c ++ (utf8Encode cs ++ rest) := by
      simp [utf8Encode]
    rw [hsplit]
    have hfuel : (c :: cs).length + f = (cs.length + f) + 1 := by
      simp
      omega
    rw [hfuel, utf8_go_char, ih]
    simp

/-- Lossy decoding inverts encoding. -/
theorem utf8_roundtrip (s : List Char) : utf8DecodeLossy (utf8Encode s) = s := by
  unfold utf8DecodeLossy
  have hge := utf8Encode_length_ge s
  obtain ⟨k, hk⟩ : ∃ k, (utf8Encode s).length = s.length + k :=
    ⟨(utf8Encode s).length - s.length, by omega⟩
  rw [hk]
  have hg := utf8_go_append s k []
  rw [List.append_nil] at hg
  rw [hg, utf8DecodeGo_nil, List.append_nil]

/-- Encoded bytes fit in an octet. -/
theorem utf8EncodeChar_lt_256 (c : Char) : ∀ x ∈ utf8EncodeChar c, x < 256 := by
  obtain ⟨hlt, _⟩ := char_valid_facts c
  unfold utf8EncodeChar
  split_ifs with h1 h2 h3 <;> intro x hx <;> simp at hx <;> omega

/-- Encoded bytes fit in an octet, whole-string form. -/
theorem utf8Encode_lt_256 (s : List Char) : ∀ x ∈ utf8Encode s, x < 256 := by
  intro x hx
  simp only [utf8Encode, List.mem_flatten, List.mem_map] at hx
  obtain ⟨l, ⟨c, _, rfl⟩, hxl⟩ := hx
  exact utf8EncodeChar_lt_256 c x hxl

/-! ### Decimal digits round-trip -/

/-- Digit test via scalar values. -/
theorem isDigitChr_iff (c : Char) : isDigitChr c = true ↔ 48 ≤ c.toNat ∧ c.toNat ≤ 57 := by
  unfold isDigitChr
  rw [Bool.and_eq_true, decide_eq_true_iff, decide_eq_true_iff, char_le_toNat, char_le_toNat]
  exact Iff.rfl

/-- Scalar value of a digit character. -/
theorem digit_char_toNat (d : Nat) (h : d ≤ 9) : (Char.ofNat (48 + d)).toNat = 48 + d :=
  char_toNat_ofNat _ (Or.inl (by omega))

/-- Greedy digit consumption stops before a non-digit. -/
theorem parseDigits_stop (acc : Nat) (rest : List Char) (h : noDigitHead rest = true) :
    parseDigits acc rest = (acc, rest) := by
  cases rest with
  | nil => rfl
  | cons c cs =>
    have hc : isDigitChr c = false := by
      unfold noDigitHead at h
      simpa using h
    simp [parseDigits, hc]

/-- The decimal rendering is non-empty, consists of digits, and is consumed
exactly by the greedy digit parser (continuation form). -/
theorem natToCharsAux_spec (n : Nat) : ∀ f, n < f →
    (∃ c t, natToCharsAux f n = c :: t) ∧
    (∀ c ∈ natToCharsAux f n, 48 ≤ c.toNat ∧ c.toNat ≤ 57) ∧
    (∀ acc rest, parseDigits acc (natToCharsAux f n ++ rest) =
       parseDigits (acc * 10 ^ (natToCharsAux f n).length + n) rest) := by
  induction n using Nat.strong_induction_on with
  | _ n ih =>
    intro f hf
    obtain ⟨f', rfl⟩ : ∃ f', f = f' + 1 := ⟨f - 1, by omega⟩
    rw [natToCharsAux]
    by_cases h10 : n < 10
    · rw [if_pos h10]
      refine ⟨⟨_, _, rfl⟩, ?_, ?_⟩
      · intro c hc
        simp at hc
        subst hc
        rw [digit_char_toNat n (by omega)]
        omega
      · intro acc rest
        simp only [List.cons_append, List.nil_append]
        rw [parseDigits]
        have hd : isDigitChr (Char.ofNat (48 + n)) = true := by
          rw [isDigitChr_iff, digit_char_toNat n (by omega)]
          omega
        rw [if_pos hd, digit_char_toNat n (by omega)]
        have he : acc * 10 + (48 + n - 48) = acc * 10 ^ ([Char.ofNat (48 + n)].length) + n := by
          simp only [List.length_cons, List.length_nil, pow_one]
          omega
        rw [he]
    · rw [if_neg h10]
      obtain ⟨⟨c0, t0, hct⟩, hbounds, hparse⟩ := ih (n / 10) (by omega) f' (by omega)
      refine ⟨?_, ?_, ?_⟩
      · rw [hct]
        exact ⟨c0, t0 ++ [Char.ofNat (48 + n % 10)], rfl⟩
      · intro c hc
        rcases List.mem_append.mp hc with hc | hc
        · exact hbounds c hc
        · simp at hc
          subst hc
          rw [digit_char_toNat _ (by omega)]
          omega
      · intro acc rest
        rw [List.append_assoc, hparse]
        simp only [List.cons_append, List.nil_append]
        rw [parseDigits]
        have hd : isDigitChr (Char.ofNat (48 + n % 10)) = true := by
          rw [isDigitChr_iff, digit_char_toNat _ (by omega)]
          omega
        rw [if_pos hd, digit_char_toNat _ (by omega)]
        have hlen : (natToCharsAux f' (n / 10) ++ [Char.ofNat (48 + n % 10)]).length =
            (natToCharsAux f' (n / 10)).length + 1 := by simp
        rw [hlen, pow_succ]
        have hmul : acc * (10 ^ (natToCharsAux f' (n / 10)).length * 10) =
            acc * 10 ^ (natToCharsAux f' (n / 10)).length * 10 := by ring
        rw [hmul]
        have he : (acc * 10 ^ (natToCharsAux f' (n / 10)).length + n / 10) * 10 +
            (48 + n % 10 - 48) = acc * 10 ^ (natToCharsAux f' (n / 10)).length * 10 + n := by
          omega
        rw [he]

/-- `natToChars` form of `natToCharsAux_spec`. -/
theorem natToChars_spec (n : Nat) :
    (∃ c t, natToChars n = c :: t) ∧
    (∀ c ∈ natToChars n, 48 ≤ c.toNat ∧ c.toNat ≤ 57) ∧
    (∀ acc rest, parseDigits acc (natToChars n ++ rest) =
       parseDigits (acc * 10 ^ (natToChars n).length + n) rest) :=
  natToCharsAux_spec n (n + 1) (by omega)

/-! ### JSON string-literal round-trip -/

/-- Characters with distinct scalar values are distinct. -/
theorem char_ne_of_toNat_ne (a b : Char) (h : a.toNat ≠ b.toNat) : a ≠ b :=
  fun he => h (he ▸ rfl)

/-- The hex-digit maps are inverse. -/
theorem hexVal_hexDigitChr : ∀ d, d < 16 → hexVal (hexDigitChr d) = some d := by decide

/-- A closing quote ends the string body. -/
theorem parseStr_quote (r : List Char) : parseStrChars ('"' :: r) = some ([], r) := by
  rw [parseStrChars.eq_def]
  simp

/-- Escaped quote. -/
theorem parseStr_esc_quote (r : List Char) :
    parseStrChars ('\\' :: '"' :: r) = pushChar '"' (parseStrChars r) := by
  rw [parseStrChars.eq_def]
  simp

/-- Escaped backslash. -/
theorem parseStr_esc_back (r : List Char) :
    parseStrChars ('\\' :: '\\' :: r) = pushChar '\\' (parseStrChars r) := by
  rw [parseStrChars.eq_def]
  simp

/-- Escaped backspace. -/
theorem parseStr_esc_b (r : List Char) :
    parseStrChars ('\\' :: 'b' :: r) = pushChar (Char.ofNat 8) (parseStrChars r) := by
  rw [parseStrChars.eq_def]
  simp

/-- Escaped tab. -/
theorem parseStr_esc_t (r : List Char) :
    parseStrChars ('\\' :: 't' :: r) = pushChar (Char.ofNat 9) (parseStrChars r) := by
  rw [parseStrChars.eq_def]
  simp

/-- Escaped newline. -/
theorem parseStr_esc_n (r : List Char) :
    parseStrChars ('\\' :: 'n' :: r) = pushChar (Char.ofNat 10) (parseStrChars r) := by
  rw [parseStrChars.eq_def]
  simp

/-- Escaped form feed. -/
theorem parseStr_esc_f (r : List Char) :
    parseStrChars ('\\' :: 'f' :: r) = pushChar (Char.ofNat 12) (parseStrChars r) := by
  rw [parseStrChars.eq_def]
  simp

/-- Escaped carriage return. -/
theorem parseStr_esc_r (r : List Char) :
    parseStrChars ('\\' :: 'r' :: r) = pushChar (Char.ofNat 13) (parseStrChars r) := by
  rw [parseStrChars.eq_def]
  simp

/-- Unicode escape. -/
theorem parseStr_esc_u (u1 u2 u3 u4 : Char) (r : List Char) :
    parseStrChars ('\\' :: 'u' :: u1 :: u2 :: u3 :: u4 :: r) =
      match hexVal u1, hexVal u2, hexVal u3, hexVal u4 with
      | some x1, some x2, some x3, some x4 =>
        pushChar (Char.ofNat (x1 * 4096 + x2 * 256 + x3 * 16 + x4)) (parseStrChars r)
      | _, _, _, _ => none := by
  rw [parseStrChars.eq_def]
  simp

/-- A plain (unescaped) character. -/
theorem parseStr_raw (c : Char) (r : List Char) (h1 : ¬c = '"') (h2 : ¬c = '\\')
    (h3 : ¬c.toNat < 32) : parseStrChars (c :: r) = pushChar c (parseStrChars r) := by
  rw [parseStrChars.eq_def]
  simp only [if_neg h1, if_neg h2, if_neg h3]

/-- `JSON.stringify` escaping of a quote character. -/
theorem qchar_of_quote : qcharJSON '"' = ['\\', '"'] := by decide

/-- `JSON.stringify` escaping of a backslash. -/
theorem qchar_of_back : qcharJSON '\\' = ['\\', '\\'] := by decide

/-- `JSON.stringify` named control escapes. -/
theorem qchar_of_ctrl (c : Char) (e : Char) (n : Nat) (hn : c.toNat = n)
    (hwhich : (n = 8 ∧ e = 'b') ∨ (n = 9 ∧ e = 't') ∨ (n = 10 ∧ e = 'n') ∨
      (n = 12 ∧ e = 'f') ∨ (n = 13 ∧ e = 'r')) :
    qcharJSON c = ['\\', e] := by
  unfold qcharJSON
  rcases hwhich with ⟨rfl, rfl⟩ | ⟨rfl, rfl⟩ | ⟨rfl, rfl⟩ | ⟨rfl, rfl⟩ | ⟨rfl, rfl⟩
  · rw [if_neg (char_ne_of_toNat_ne _ _ (by rw [hn]; decide)),
      if_neg (char_ne_of_toNat_ne _ _ (by rw [hn]; decide)), if_pos hn]
  · rw [if_neg (char_ne_of_toNat_ne _ _ (by rw [hn]; decide)),
      if_neg (char_ne_of_toNat_ne _ _ (by rw [hn]; decide)),
      if_neg (by omega), if_pos hn]
  · rw [if_neg (char_ne_of_toNat_ne _ _ (by rw [hn]; decide)),
      if_neg (char_ne_of_toNat_ne _ _ (by rw [hn]; decide)),
      if_neg (by omega), if_neg (by omega), if_pos hn]
  · rw [if_neg (char_ne_of_toNat_ne _ _ (by rw [hn]; decide)),
      if_neg (char_ne_of_toNat_ne _ _ (by rw [hn]; decide)),
      if_neg (by omega), if_neg (by omega), if_neg (by omega), if_pos hn]
  · rw [if_neg (char_ne_of_toNat_ne _ _ (by rw [hn]; decide)),
      if_neg (char_ne_of_toNat_ne _ _ (by rw [hn]; decide)),
      if_neg (by omega), if_neg (by omega), if_neg (by omega), if_neg (by omega), if_pos hn]

/-- `JSON.stringify` numeric escape for remaining control characters. -/
theorem qchar_of_lowctrl (c : Char) (h : c.toNat < 32) (h8 : c.toNat ≠ 8) (h9 : c.toNat ≠ 9)
    (h10 : c.toNat ≠ 10) (h12 : c.toNat ≠ 12) (h13 : c.toNat ≠ 13) :
    qcharJSON c = ['\\', 'u', '0', '0', hexDigitChr (c.toNat / 16), hexDigitChr (c.toNat % 16)] := by
  unfold qcharJSON
  rw [if_neg (char_ne_of_toNat_ne _ _ (show c.toNat ≠ 34 by omega)),
    if_neg (char_ne_of_toNat_ne _ _ (show c.toNat ≠ 92 by omega)),
    if_neg h8, if_neg h9, if_neg h10, if_neg h12, if_neg h13, if_pos h]

/-- `JSON.stringify` passes other characters through verbatim. -/
theorem qchar_of_raw (c : Char) (h1 : ¬c = '"') (h2 : ¬c = '\\') (h3 : ¬c.toNat < 32) :
    qcharJSON c = [c] := by
  unfold qcharJSON
  rw [if_neg h1, if_neg h2, if_neg (by omega), if_neg (by omega), if_neg (by omega),
    if_neg (by omega), if_neg (by omega), if_neg h3]

/-- Parsing inverts `JSON.stringify` escaping of a string body. -/
theorem parseStr_qbody (l : List Char) : ∀ rest,
    parseStrChars ((l.map qcharJSON).flatten ++ '"' :: rest) = some (l, rest) := by
  induction l with
  | nil =>
    intro rest
    simp only [List.map_nil, List.flatten_nil, List.nil_append]
    exact parseStr_quote rest
  | cons c l' ih =>
    intro rest
    have hsplit : ((c :: l').map qcharJSON).flatten ++ '"' :: rest =
        qcharJSON c ++ ((l'.map qcharJSON).flatten ++ '"' :: rest) := by
      simp
    rw [hsplit]
    by_cases h1 : c = '"'
    · subst h1
      rw [qchar_of_quote]
      simp only [List.cons_append, List.nil_append]
      rw [parseStr_esc_quote, ih]
      rfl
    · by_cases h2 : c = '\\'
      · subst h2
        rw [qchar_of_back]
        simp only [List.cons_append, List.nil_append]
        rw [parseStr_esc_back, ih]
        rfl
      · by_cases h3 : c.toNat = 8
        · rw [qchar_of_ctrl c 'b' 8 h3 (Or.inl ⟨rfl, rfl⟩)]
          simp only [List.cons_append, List.nil_append]
          rw [parseStr_esc_b, ih]
          rw [show Char.ofNat 8 = c by rw [← h3, Char.ofNat_toNat]]
          rfl
        · by_cases h4 : c.toNat = 9
          · rw [qchar_of_ctrl c 't' 9 h4 (Or.inr (Or.inl ⟨rfl, rfl⟩))]
            simp only [List.cons_append, List.nil_append]
            rw [parseStr_esc_t, ih]
            rw [show Char.ofNat 9 = c by rw [← h4, Char.ofNat_toNat]]
            rfl
          · by_cases h5 : c.toNat = 10
            · rw [qchar_of_ctrl c 'n' 10 h5 (Or.inr (Or.inr (Or.inl ⟨rfl, rfl⟩)))]
              simp only [List.cons_append, List.nil_append]
              rw [parseStr_esc_n, ih]
              rw [show Char.ofNat 10 = c by rw [← h5, Char.ofNat_toNat]]
              rfl
            · by_cases h6 : c.toNat = 12
              · rw [qchar_of_ctrl c 'f' 12 h6 (Or.inr (Or.inr (Or.inr (Or.inl ⟨rfl, rfl⟩))))]
                simp only [List.cons_append, List.nil_append]
                rw [parseStr_esc_f, ih]
                rw [show Char.ofNat 12 = c by rw [← h6, Char.ofNat_toNat]]
                rfl
              · by_cases h7 : c.toNat = 13
                · rw [qchar_of_ctrl c 'r' 13 h7 (Or.inr (Or.inr (Or.inr (Or.inr ⟨rfl, rfl⟩))))]
                  simp only [List.cons_append, List.nil_append]
                  rw [parseStr_esc_r, ih]
                  rw [show Char.ofNat 13 = c by rw [← h7, Char.ofNat_toNat]]
                  rfl
                · by_cases h8 : c.toNat < 32
                  · rw [qchar_of_lowctrl c h8 h3 h4 h5 h6 h7]
                    simp only [List.cons_append, List.nil_append]
                    rw [parseStr_esc_u]
                    have e0 : hexVal '0' = some 0 := by decide
                    have e1 : hexVal (hexDigitChr (c.toNat / 16)) = some (c.toNat / 16) :=
                      hexVal_hexDigitChr _ (by omega)
                    have e2 : hexVal (hexDigitChr (c.toNat % 16)) = some (c.toNat % 16) :=
                      hexVal_hexDigitChr _ (by omega)
                    rw [e0, e1, e2]
                    simp only []
                    rw [ih]
                    rw [show 0 * 4096 + 0 * 256 + c.toNat / 16 * 16 + c.toNat % 16 = c.toNat
                      from by omega, Char.ofNat_toNat]
                    rfl
                  · rw [qchar_of_raw c h1 h2 h8]
                    simp only [List.cons_append, List.nil_append]
                    rw [parseStr_raw c _ h1 h2 h8, ih]
                    rfl

/-! ### Parser step reductions -/

/-- Whitespace skipping stops at a non-whitespace head. -/
theorem skipWs_cons (c : Char) (cs : List Char) (h : jsonWs c = false) :
    skipWs (c :: cs) = c :: cs := by
  rw [skipWs, h]
  simp

/-- Whitespace test via scalar values. -/
theorem jsonWs_false_of_toNat (c : Char) (h1 : c.toNat ≠ 32) (h2 : c.toNat ≠ 9)
    (h3 : c.toNat ≠ 10) (h4 : c.toNat ≠ 13) : jsonWs c = false := by
  unfold jsonWs
  simp [eq_false (char_ne_of_toNat_ne c ' ' (show c.toNat ≠ 32 from h1)),
    eq_false (char_ne_of_toNat_ne c '\t' (show c.toNat ≠ 9 from h2)),
    eq_false (char_ne_of_toNat_ne c '\n' (show c.toNat ≠ 10 from h3)),
    eq_false (char_ne_of_toNat_ne c '\r' (show c.toNat ≠ 13 from h4))]

/-- Every JSON value has positive size. -/
theorem jsize_pos (v : Json) : 1 ≤ jsize v := by
  cases v with
  | null => exact le_refl 1
  | bool b => exact le_refl 1
  | num n => exact le_refl 1
  | str s => exact le_refl 1
  | arr xs => exact Nat.le_add_left 1 (jsizeElems xs)
  | obj kvs => exact Nat.le_add_left 1 (jsizeMembers kvs)

/-- Parser step: `null`. -/
theorem parseVal_null (f : Nat) (r : List Char) :
    parseVal (f + 1) ('n' :: 'u' :: 'l' :: 'l' :: r) = some (.null, r) := by
  rw [parseVal.eq_def]
  simp [skipWs, jsonWs]

/-- Parser step: `true`. -/
theorem parseVal_true (f : Nat) (r : List Char) :
    parseVal (f + 1) ('t' :: 'r' :: 'u' :: 'e' :: r) = some (.bool true, r) := by
  rw [parseVal.eq_def]
  simp [skipWs, jsonWs]

/-- Parser step: `false`. -/
theorem parseVal_false (f : Nat) (r : List Char) :
    parseVal (f + 1) ('f' :: 'a' :: 'l' :: 's' :: 'e' :: r) = some (.bool false, r) := by
  rw [parseVal.eq_def]
  simp [skipWs, jsonWs]

/-- Parser step: a string literal. -/
theorem parseVal_str (f : Nat) (cs : List Char) :
    parseVal (f + 1) ('"' :: cs) =
      match parseStrChars cs with
      | some (cs2, r) => some (.str (String.mk cs2), r)
      | none => none := by
  rw [parseVal.eq_def]
  simp [skipWs, jsonWs]

/-- Parser step: the empty array. -/
theorem parseVal_arr_nil (f : Nat) (r : List Char) :
    parseVal (f + 1) ('[' :: ']' :: r) = some (.arr .nil, r) := by
  rw [parseVal.eq_def]
  simp [skipWs, jsonWs]

/-- Parser step: a non-empty array. -/
theorem parseVal_arr_cons (f : Nat) (c2 : Char) (r : List Char) (hws : jsonWs c2 = false)
    (hne : c2 ≠ ']') :
    parseVal (f + 1) ('[' :: c2 :: r) =
      match parseElems f (c2 :: r) with
      | some (xs, r2) => some (.arr xs, r2)
      | none => none := by
  rw [parseVal.eq_def]
  simp [skipWs_cons '[' _ (by decide), skipWs_cons c2 r hws, hne]

/-- Parser step: the empty object. -/
theorem parseVal_obj_nil (f : Nat) (r : List Char) :
    parseVal (f + 1) (lbrace :: rbrace :: r) = some (.obj .nil, r) := by
  rw [parseVal.eq_def]
  simp [skipWs_cons lbrace _ (by decide), skipWs_cons rbrace r (by decide),
    show (lbrace = 'n') = False by decide, show (lbrace = 't') = False by decide,
    show (lbrace = 'f') = False by decide, show (lbrace = '"') = False by decide,
    show (lbrace = '[') = False by decide, show (isDigitChr lbrace) = false by decide,
    show (lbrace = '-') = False by decide]

/-- Parser step: a non-empty object. -/
theorem parseVal_obj_cons (f : Nat) (c2 : Char) (r : List Char) (hws : jsonWs c2 = false)
    (hne : c2 ≠ rbrace) :
    parseVal (f + 1) (lbrace :: c2 :: r) =
      match parseMembers f (c2 :: r) with
      | some (kvs, r2) => some (.obj (buildObj kvs), r2)
      | none => none := by
  rw [parseVal.eq_def]
  simp [skipWs_cons lbrace _ (by decide), skipWs_cons c2 r hws, hne,
    show (lbrace = 'n') = False by decide, show (lbrace = 't') = False by decide,
    show (lbrace = 'f') = False by decide, show (lbrace = '"') = False by decide,
    show (lbrace = '[') = False by decide, show (isDigitChr lbrace) = false by decide,
    show (lbrace = '-') = False by decide]

/-- Parser step: a number without sign. -/
theorem parseVal_digit (f : Nat) (c : Char) (cs : List Char) (hc : isDigitChr c = true) :
    parseVal (f + 1) (c :: cs) =
      some (.num ((parseDigits 0 (c :: cs)).1 : Int), (parseDigits 0 (c :: cs)).2) := by
  obtain ⟨hlo, hhi⟩ := (isDigitChr_iff c).mp hc
  rw [parseVal.eq_def]
  simp [hc, skipWs_cons c cs (jsonWs_false_of_toNat c (by omega) (by omega) (by omega) (by omega)),
    eq_false (char_ne_of_toNat_ne c 'n' (show c.toNat ≠ 110 by omega)),
    eq_false (char_ne_of_toNat_ne c 't' (show c.toNat ≠ 116 by omega)),
    eq_false (char_ne_of_toNat_ne c 'f' (show c.toNat ≠ 102 by omega)),
    eq_false (char_ne_of_toNat_ne c '"' (show c.toNat ≠ 34 by omega)),
    eq_false (char_ne_of_toNat_ne c '[' (show c.toNat ≠ 91 by omega)),
    eq_false (char_ne_of_toNat_ne c lbrace (show c.toNat ≠ 123 by omega)),
    eq_false (char_ne_of_toNat_ne c '-' (show c.toNat ≠ 45 by omega))]

/-- Parser step: a negative number. -/
theorem parseVal_neg (f : Nat) (d : Char) (cs : List Char) (hd : isDigitChr d = true) :
    parseVal (f + 1) ('-' :: d :: cs) =
      some (.num (-((parseDigits 0 (d :: cs)).1 : Int)), (parseDigits 0 (d :: cs)).2) := by
  rw [parseVal.eq_def]
  simp [hd, skipWs_cons '-' _ (by decide),
    show ('-' = 'n') = False by decide, show ('-' = 't') = False by decide,
    show ('-' = 'f') = False by decide, show ('-' = '"') = False by decide,
    show ('-' = '[') = False by decide, show ('-' = lbrace) = False by decide,
    show (isDigitChr '-') = false by decide]

/-! ### Heads of renderings and object rebuilding -/

/-- A good head is not whitespace and none of the closing delimiters. -/
theorem goodHead_facts (c : Char) (h : goodHead c) :
    jsonWs c = false ∧ c ≠ ']' ∧ c ≠ rbrace ∧ c ≠ ',' ∧ c ≠ ':' := by
  rcases h with rfl | rfl | rfl | rfl | rfl | rfl | rfl | hd
  · exact ⟨by decide, by decide, by decide, by decide, by decide⟩
  · exact ⟨by decide, by decide, by decide, by decide, by decide⟩
  · exact ⟨by decide, by decide, by decide, by decide, by decide⟩
  · exact ⟨by decide, by decide, by decide, by decide, by decide⟩
  · exact ⟨by decide, by decide, by decide, by decide, by decide⟩
  · exact ⟨by decide, by decide, by decide, by decide, by decide⟩
  · exact ⟨by decide, by decide, by decide, by decide, by decide⟩
  · obtain ⟨hlo, hhi⟩ := (isDigitChr_iff c).mp hd
    exact ⟨jsonWs_false_of_toNat c (by omega) (by omega) (by omega) (by omega),
      char_ne_of_toNat_ne _ _ (show c.toNat ≠ 93 by omega),
      char_ne_of_toNat_ne _ _ (show c.toNat ≠ 125 by omega),
      char_ne_of_toNat_ne _ _ (show c.toNat ≠ 44 by omega),
      char_ne_of_toNat_ne _ _ (show c.toNat ≠ 58 by omega)⟩

/-- Every rendering starts with a good head character. -/
theorem stringify_head (v : Json) : ∃ c t, stringify v = c :: t ∧ goodHead c := by
  cases v with
  | null => exact ⟨'n', _, rfl, Or.inl rfl⟩
  | bool b =>
    cases b with
    | false => exact ⟨'f', _, rfl, Or.inr (Or.inr (Or.inl rfl))⟩
    | true => exact ⟨'t', _, rfl, Or.inr (Or.inl rfl)⟩
  | num i =>
    by_cases hneg : i < 0
    · refine ⟨'-', natToChars i.natAbs, ?_, ?_⟩
      · show intToChars i = _
        unfold intToChars
        rw [if_pos hneg]
      · exact Or.inr (Or.inr (Or.inr (Or.inr (Or.inr (Or.inr (Or.inl rfl))))))
    · obtain ⟨⟨c, t, hct⟩, hb, _⟩ := natToChars_spec i.natAbs
      refine ⟨c, t, ?_, ?_⟩
      · show intToChars i = _
        unfold intToChars
        rw [if_neg hneg, hct]
      · have hbc := hb c (by rw [hct]; exact List.mem_cons_self _ _)
        exact Or.inr (Or.inr (Or.inr (Or.inr (Or.inr (Or.inr (Or.inr
          ((isDigitChr_iff c).mpr (by omega))))))))
  | str s => exact ⟨'"', _, rfl, Or.inr (Or.inr (Or.inr (Or.inl rfl)))⟩
  | arr xs => exact ⟨'[', _, rfl, Or.inr (Or.inr (Or.inr (Or.inr (Or.inl rfl))))⟩
  | obj kvs => exact ⟨lbrace, _, rfl, Or.inr (Or.inr (Or.inr (Or.inr (Or.inr (Or.inl rfl)))))⟩

/-- JS property write on an object headed by a different key. -/
theorem jsObjSet_cons_ne (k key : String) (v w : Json) (o : JsonObj) (h : ¬k = key) :
    jsObjSet (.cons k v o) key w = .cons k v (jsObjSet o key w) := by
  rw [jsObjSet, if_neg h]

/-- Folding member writes after a fresh head member. -/
theorem foldl_jsObjSet_cons (l : List (String × Json)) (k : String) (v : Json)
    (hk : ∀ kv ∈ l, kv.1 ≠ k) : ∀ acc : JsonObj,
    l.foldl (fun a kv => jsObjSet a kv.1 kv.2) (.cons k v acc) =
      .cons k v (l.foldl (fun a kv => jsObjSet a kv.1 kv.2) acc) := by
  induction l with
  | nil => intro acc; rfl
  | cons kv l' ih =>
    intro acc
    simp only [List.foldl_cons]
    rw [jsObjSet_cons_ne k kv.1 v kv.2 acc (Ne.symm (hk kv (List.mem_cons_self _ _)))]
    exact ih (fun kv2 h2 => hk kv2 (List.mem_cons_of_mem _ h2)) _

/-- Absent keys are absent from the member list. -/
theorem jsObjHas_false_keys : ∀ (o : JsonObj) (k : String), jsObjHas o k = false →
    ∀ kv ∈ jsObjToList o, kv.1 ≠ k
  | .nil, k, h => by
    intro kv hkv
    simp [jsObjToList] at hkv
  | .cons k2 v tl, k, h => by
    intro kv hkv
    unfold jsObjHas at h
    simp only [Bool.or_eq_false_iff] at h
    obtain ⟨h1, h2⟩ := h
    rcases List.mem_cons.mp hkv with rfl | hkv2
    · simpa using h1
    · exact jsObjHas_false_keys tl k h2 kv hkv2

/-- Writing the members of a fresh-keyed object in order rebuilds it. -/
theorem buildObj_toList : ∀ o : JsonObj, jsObjFresh o = true → buildObj (jsObjToList o) = o
  | .nil, _ => rfl
  | .cons k v tl, h => by
    unfold jsObjFresh at h
    rw [Bool.and_eq_true, Bool.not_eq_true'] at h
    obtain ⟨hh, hf⟩ := h
    unfold buildObj
    simp only [jsObjToList, List.foldl_cons]
    rw [show jsObjSet .nil k v = .cons k v .nil from rfl]
    rw [foldl_jsObjSet_cons (jsObjToList tl) k v (jsObjHas_false_keys tl k hh) .nil]
    have ih := buildObj_toList tl hf
    unfold buildObj at ih
    rw [ih]

mutual

/-- The size of a value is at most its rendering length. -/
theorem jsize_le_len : ∀ v : Json, jsize v ≤ (stringify v).length
  | .null => by simp [stringify, jsize]
  | .bool true => by simp [stringify, jsize]
  | .bool false => by simp [stringify, jsize]
  | .num i => by
    obtain ⟨c, t, hct⟩ := (natToChars_spec i.natAbs).1
    simp only [stringify, jsize, intToChars]
    split_ifs
    · simp [hct]
    · rw [hct]
      simp
  | .str s => by simp [stringify, jsize, qstr]
  | .arr xs => by
    have h := jsizeElems_le_len xs
    simp only [stringify, jsize, List.length_cons, List.length_append, List.length_nil]
    omega
  | .obj kvs => by
    have h := jsizeMembers_le_len kvs
    simp only [stringify, jsize, List.length_cons, List.length_append, List.length_nil]
    omega

/-- Element-list form of `jsize_le_len`. -/
theorem jsizeElems_le_len : ∀ xs : JsonArr, jsizeElems xs ≤ (stringifyElems xs).length + 1
  | .nil => by simp [stringifyElems, jsizeElems]
  | .cons x .nil => by
    have h := jsize_le_len x
    simp only [stringifyElems, jsizeElems]
    omega
  | .cons x (.cons y tl) => by
    have h1 := jsize_le_len x
    have h2 := jsizeElems_le_len (.cons y tl)
    simp only [stringifyElems, jsizeElems, List.length_append, List.length_cons] at h2 ⊢
    omega

/-- Member-list form of `jsize_le_len`. -/
theorem jsizeMembers_le_len : ∀ kvs : JsonObj, jsizeMembers kvs ≤ (stringifyMembers kvs).length + 1
  | .nil => by simp [stringifyMembers, jsizeMembers]
  | .cons k v .nil => by
    have h := jsize_le_len v
    simp only [stringifyMembers, jsizeMembers, List.length_append, List.length_cons]
    omega
  | .cons k v (.cons k2 v2 tl) => by
    have h1 := jsize_le_len v
    have h2 := jsizeMembers_le_len (.cons k2 v2 tl)
    simp only [stringifyMembers, jsizeMembers, List.length_append, List.length_cons] at h2 ⊢
    omega

end

/-- Specialized whitespace steps for the delimiters. -/
theorem skipWs_quote (cs : List Char) : skipWs ('"' :: cs) = '"' :: cs :=
  skipWs_cons _ _ (by decide)

/-- See `skipWs_quote`. -/
theorem skipWs_colon (cs : List Char) : skipWs (':' :: cs) = ':' :: cs :=
  skipWs_cons _ _ (by decide)

/-- See `skipWs_quote`. -/
theorem skipWs_comma (cs : List Char) : skipWs (',' :: cs) = ',' :: cs :=
  skipWs_cons _ _ (by decide)

/-- See `skipWs_quote`. -/
theorem skipWs_rbrack (cs : List Char) : skipWs (']' :: cs) = ']' :: cs :=
  skipWs_cons _ _ (by decide)

/-- See `skipWs_quote`. -/
theorem skipWs_rbraceStep (cs : List Char) : skipWs (rbrace :: cs) = rbrace :: cs :=
  skipWs_cons _ _ (by decide)

/-- The parser inverts `stringify` on well-formed values (mutual statement,
by induction on the fuel). -/
theorem parse_stringify_rec : ∀ f : Nat,
    (∀ (v : Json) (rest : List Char), jsonWfB v = true → jsize v ≤ f →
       noDigitHead rest = true → parseVal f (stringify v ++ rest) = some (v, rest)) ∧
    (∀ (xs : JsonArr) (rest : List Char), jsonWfArr xs = true → xs ≠ .nil →
       jsizeElems xs ≤ f → parseElems f (stringifyElems xs ++ ']' :: rest) = some (xs, rest)) ∧
    (∀ (kvs : JsonObj) (rest : List Char), jsonWfObj kvs = true → kvs ≠ .nil →
       jsizeMembers kvs ≤ f →
       parseMembers f (stringifyMembers kvs ++ rbrace :: rest) = some (jsObjToList kvs, rest)) := by
  intro f
  induction f with
  | zero =>
    refine ⟨?_, ?_, ?_⟩
    · intro v rest _ hsz _
      have := jsize_pos v
      omega
    · intro xs rest _ hne hsz
      cases xs with
      | nil => exact absurd rfl hne
      | cons x tl =>
        have := jsize_pos x
        simp only [jsizeElems] at hsz
        omega
    · intro kvs rest _ hne hsz
      cases kvs with
      | nil => exact absurd rfl hne
      | cons k v tl =>
        have := jsize_pos v
        simp only [jsizeMembers] at hsz
        omega
  | succ f ih =>
    obtain ⟨ihV, ihE, ihM⟩ := ih
    refine ⟨?_, ?_, ?_⟩
    · intro v rest hwf hsz hnd
      cases v with
      | null =>
        rw [show stringify .null ++ rest = 'n' :: 'u' :: 'l' :: 'l' :: rest from rfl]
        exact parseVal_null f rest
      | bool b =>
        cases b with
        | true =>
          rw [show stringify (.bool true) ++ rest = 't' :: 'r' :: 'u' :: 'e' :: rest from rfl]
          exact parseVal_true f rest
        | false =>
          rw [show stringify (.bool false) ++ rest =
            'f' :: 'a' :: 'l' :: 's' :: 'e' :: rest from rfl]
          exact parseVal_false f rest
      | num i =>
        obtain ⟨⟨c0, t0, hct⟩, hdig, hparse⟩ := natToChars_spec i.natAbs
        have hc0 : isDigitChr c0 = true := by
          have hb := hdig c0 (by rw [hct]; exact List.mem_cons_self _ _)
          rw [isDigitChr_iff]
          omega
        have hpd : parseDigits 0 (natToChars i.natAbs ++ rest) = (i.natAbs, rest) := by
          rw [hparse 0 rest]
          rw [show 0 * 10 ^ (natToChars i.natAbs).length + i.natAbs = i.natAbs from by omega]
          exact parseDigits_stop _ rest hnd
        have hpd2 : parseDigits 0 (c0 :: (t0 ++ rest)) = (i.natAbs, rest) := by
          rw [show c0 :: (t0 ++ rest) = natToChars i.natAbs ++ rest from by rw [hct]; rfl]
          exact hpd
        by_cases hneg : i < 0
        · have hstr : stringify (.num i) ++ rest = '-' :: (c0 :: (t0 ++ rest)) := by
            show intToChars i ++ rest = _
            unfold intToChars
            rw [if_pos hneg, hct]
            simp
          rw [hstr, parseVal_neg f c0 (t0 ++ rest) hc0, hpd2]
          rw [show ((i.natAbs, rest) : Nat × List Char).1 = i.natAbs from rfl,
            show ((i.natAbs, rest) : Nat × List Char).2 = rest from rfl,
            show -((i.natAbs : Nat) : Int) = i from by omega]
        · have hstr : stringify (.num i) ++ rest = c0 :: (t0 ++ rest) := by
            show intToChars i ++ rest = _
            unfold intToChars
            rw [if_neg hneg, hct]
            simp
          rw [hstr, parseVal_digit f c0 (t0 ++ rest) hc0, hpd2]
          rw [show ((i.natAbs, rest) : Nat × List Char).1 = i.natAbs from rfl,
            show ((i.natAbs, rest) : Nat × List Char).2 = rest from rfl,
            show ((i.natAbs : Nat) : Int) = i from by omega]
      | str s =>
        have hq : stringify (.str s) ++ rest =
            '"' :: ((s.data.map qcharJSON).flatten ++ '"' :: rest) := by
          show qstr s ++ rest = _
          unfold qstr
          simp
        rw [hq, parseVal_str, parseStr_qbody s.data rest]
      | arr xs =>
        cases xs with
        | nil =>
          rw [show stringify (.arr .nil) ++ rest = '[' :: ']' :: rest from rfl]
          exact parseVal_arr_nil f rest
        | cons x tl =>
          obtain ⟨c0, t0, hct, hgh⟩ := stringify_head x
          obtain ⟨hws0, hnb0, _, _, _⟩ := goodHead_facts c0 hgh
          have hsplit : stringify (.arr (.cons x tl)) ++ rest =
              '[' :: (stringifyElems (.cons x tl) ++ ']' :: rest) := by
            show ('[' :: stringifyElems (.cons x tl) ++ [']']) ++ rest = _
            simp
          rw [hsplit]
          obtain ⟨Z, hZ⟩ : ∃ Z, stringifyElems (.cons x tl) ++ ']' :: rest = c0 :: Z := by
            cases tl with
            | nil =>
              refine ⟨t0 ++ ']' :: rest, ?_⟩
              show stringify x ++ ']' :: rest = _
              rw [hct]
              rfl
            | cons y tl2 =>
              refine ⟨t0 ++ ',' :: stringifyElems (.cons y tl2) ++ ']' :: rest, ?_⟩
              show (stringify x ++ ',' :: stringifyElems (.cons y tl2)) ++ ']' :: rest = _
              rw [hct]
              simp
          rw [hZ, parseVal_arr_cons f c0 Z hws0 hnb0, ← hZ]
          rw [ihE (.cons x tl) rest hwf (fun h => JsonArr.noConfusion h)
            (by simp only [jsize] at hsz; omega)]
      | obj kvs =>
        cases kvs with
        | nil =>
          rw [show stringify (.obj .nil) ++ rest = lbrace :: rbrace :: rest from rfl]
          exact parseVal_obj_nil f rest
        | cons k v tl =>
          have hwf2 := hwf
          rw [show jsonWfB (.obj (.cons k v tl)) =
            (jsObjFresh (.cons k v tl) && jsonWfObj (.cons k v tl)) from rfl,
            Bool.and_eq_true] at hwf2
          obtain ⟨hfr, hwo⟩ := hwf2
          have hsplit : stringify (.obj (.cons k v tl)) ++ rest =
              lbrace :: (stringifyMembers (.cons k v tl) ++ rbrace :: rest) := by
            show (lbrace :: stringifyMembers (.cons k v tl) ++ [rbrace]) ++ rest = _
            simp
          rw [hsplit]
          obtain ⟨Z, hZ⟩ : ∃ Z, stringifyMembers (.cons k v tl) ++ rbrace :: rest = '"' :: Z := by
            cases tl with
            | nil =>
              refine ⟨(k.data.map qcharJSON).flatten ++
                '"' :: (':' :: (stringify v ++ rbrace :: rest)), ?_⟩
              show (qstr k ++ ':' :: stringify v) ++ rbrace :: rest = _
              unfold qstr
              simp
            | cons k2 v2 tl2 =>
              refine ⟨(k.data.map qcharJSON).flatten ++ '"' :: (':' :: (stringify v ++
                ',' :: (stringifyMembers (.cons k2 v2 tl2) ++ rbrace :: rest))), ?_⟩
              show (qstr k ++ ':' :: stringify v ++
                ',' :: stringifyMembers (.cons k2 v2 tl2)) ++ rbrace :: rest = _
              unfold qstr
              simp
          rw [hZ, parseVal_obj_cons f '"' Z (by decide) (by decide), ← hZ]
          rw [ihM (.cons k v tl) rest hwo (fun h => JsonObj.noConfusion h)
            (by simp only [jsize] at hsz; omega)]
          simp only []
          rw [buildObj_toList _ hfr]
    · intro xs rest hwf hne hsz
      cases xs with
      | nil => exact absurd rfl hne
      | cons x tl =>
        rw [show jsonWfArr (.cons x tl) = (jsonWfB x && jsonWfArr tl) from rfl,
          Bool.and_eq_true] at hwf
        obtain ⟨hwx, hwtl⟩ := hwf
        simp only [jsizeElems] at hsz
        cases tl with
        | nil =>
          rw [show stringifyElems (.cons x .nil) ++ ']' :: rest =
            stringify x ++ ']' :: rest from rfl]
          rw [parseElems.eq_def]
          have hx := ihV x (']' :: rest) hwx (by omega) rfl
          simp [hx, skipWs_rbrack]
        | cons y tl2 =>
          have hs : stringifyElems (.cons x (.cons y tl2)) ++ ']' :: rest =
              stringify x ++ (',' :: (stringifyElems (.cons y tl2) ++ ']' :: rest)) := by
            show (stringify x ++ ',' :: stringifyElems (.cons y tl2)) ++ ']' :: rest = _
            simp
          rw [hs, parseElems.eq_def]
          have hx := ihV x (',' :: (stringifyElems (.cons y tl2) ++ ']' :: rest)) hwx
            (by omega) rfl
          have htl := ihE (.cons y tl2) rest hwtl (fun h => JsonArr.noConfusion h)
            (by have := jsize_pos x; omega)
          simp [hx, skipWs_comma, htl]
    · intro kvs rest hwf hne hsz
      cases kvs with
      | nil => exact absurd rfl hne
      | cons k v tl =>
        rw [show jsonWfObj (.cons k v tl) = (jsonWfB v && jsonWfObj tl) from rfl,
          Bool.and_eq_true] at hwf
        obtain ⟨hwv, hwtl⟩ := hwf
        simp only [jsizeMembers] at hsz
        cases tl with
        | nil =>
          have hs : stringifyMembers (.cons k v .nil) ++ rbrace :: rest =
              '"' :: ((k.data.map qcharJSON).flatten ++
                '"' :: (':' :: (stringify v ++ rbrace :: rest))) := by
            show (qstr k ++ ':' :: stringify v) ++ rbrace :: rest = _
            unfold qstr
            simp
          rw [hs, parseMembers.eq_def]
          have hk := parseStr_qbody k.data (':' :: (stringify v ++ rbrace :: rest))
          have hv := ihV v (rbrace :: rest) hwv (by omega) rfl
          simp [hk, hv, skipWs_quote, skipWs_colon, skipWs_rbraceStep,
            show (rbrace = ',') = False by decide, jsObjToList,
            show String.mk k.data = k from rfl]
        | cons k2 v2 tl2 =>
          have hs : stringifyMembers (.cons k v (.cons k2 v2 tl2)) ++ rbrace :: rest =
              '"' :: ((k.data.map qcharJSON).flatten ++ '"' :: (':' :: (stringify v ++
                ',' :: (stringifyMembers (.cons k2 v2 tl2) ++ rbrace :: rest)))) := by
            show (qstr k ++ ':' :: stringify v ++
              ',' :: stringifyMembers (.cons k2 v2 tl2)) ++ rbrace :: rest = _
            unfold qstr
            simp
          rw [hs, parseMembers.eq_def]
          have hk := parseStr_qbody k.data (':' :: (stringify v ++
            ',' :: (stringifyMembers (.cons k2 v2 tl2) ++ rbrace :: rest)))
          have hv := ihV v (',' :: (stringifyMembers (.cons k2 v2 tl2) ++ rbrace :: rest)) hwv
            (by omega) rfl
          have htl := ihM (.cons k2 v2 tl2) rest hwtl (fun h => JsonObj.noConfusion h)
            (by have := jsize_pos v; omega)
          simp [hk, hv, htl, skipWs_quote, skipWs_colon, skipWs_comma, jsObjToList,
            show String.mk k.data = k from rfl]

/-- `JSON.parse` inverts `JSON.stringify` on any well-formed value. -/
theorem jsonParse_stringify (v : Json) (hwf : jsonWfB v = true) :
    jsonParse (stringify v) = some v := by
  have h := (parse_stringify_rec ((stringify v).length + 1)).1 v [] hwf
    (by have := jsize_le_len v; omega) rfl
  rw [List.append_nil] at h
  unfold jsonParse
  rw [h]
  rfl

/-! ### The S3 fetch, request decoding, edits parsing and descriptor assembly -/

/-- The error object rejected by the `aws-sdk` S3 client (`err.code` /
`err.message` are the fields the handler reads). -/
structure S3Error where
  code : String
  message : String
deriving DecidableEq

/-- The object returned by `s3.getObject(...).promise()`: `Body` plus the
optional metadata fields the handler copies. -/
structure S3Object where
  Body : String
  ContentType : Option String
  CacheControl : Option String
  Expires : Option String
  LastModified : Option String
deriving DecidableEq

/-- What a successful `getOriginalImage` leaves behind: the resolved `Body`
together with the metadata fields it writes on `this`. -/
structure FetchResult where
  Body : String
  ContentType : String
  CacheControl : String
  Expires : Option String
  LastModified : Option String
deriving DecidableEq

/-- `ImageRequest.getOriginalImage`.  The S3 collaborator is the parameter
`s3` (`s3 bucket key` is the settled `getObject` promise) and `toUTC` is the
JS `new Date(x).toUTCString()` builtin.  On success the metadata defaults are
applied; on failure the error is wrapped with status 404 exactly for the
`NoSuchKey` code, 500 otherwise, keeping `code` and `message`. -/
def getOriginalImage (s3 : String → String → Except S3Error S3Object)
    (toUTC : String → String) (bucket key : String) : Except JErr FetchResult :=
  match s3 bucket key with
  | .ok o =>
    .ok { Body := o.Body
          ContentType := o.ContentType.getD "image"
          CacheControl := o.CacheControl.getD "max-age=31536000,public"
          Expires := o.Expires.map toUTC
          LastModified := o.LastModified.map toUTC }
  | .error e =>
    .error { status := if e.code = "NoSuchKey" then 404 else 500
             code := e.code
             message := e.message }

/-- `ImageRequest.decodeRequest`: `undefined`/`null` input propagates as
`none`; otherwise the value is base64-decoded (`Buffer.from(encoded,
'base64')`), read back as (lossy) UTF-8 (`toBuffer.toString()`) and JSON
parsed, a parse failure throwing the 400 decode error. -/
def decodeRequest (encoded : Option String) : Except JErr (Option Json) :=
  match encoded with
  | none => .ok none
  | some s =>
    match jsonParse (utf8DecodeLossy (b64decode s.data)) with
    | some v => .ok (some v)
    | none => .error cannotDecodeRequestErr

/-- `ImageRequest.parseImageEdits`: absent `queryStringParameters`, absent
`edits` parameter, or a decoded JSON `null` (the JS `decoded == null` loose
test) all give the empty mapping `{}`; otherwise the decoded value itself. -/
def parseImageEdits (event : Event) (requestType : String) : Except JErr Json :=
  if requestType = "Default" then
    match event.queryStringParameters with
    | none => .ok (.obj .nil)
    | some qsp =>
      match decodeRequest qsp.edits with
      | .error e => .error e
      | .ok none => .ok (.obj .nil)
      | .ok (some .null) => .ok (.obj .nil)
      | .ok (some v) => .ok v
  else
    .error cannotParseEditsErr

/-- JS truthiness of a structured value (`0`, `""`, `false`, `null` are the
falsy cases; every array/object is truthy). -/
def jsTruthy : Json → Bool
  | .null => false
  | .bool b => b
  | .num i => i != 0
  | .str s => s != ""
  | .arr _ => true
  | .obj _ => true

/-- JS truthiness of a possibly-`undefined` value. -/
def jsTruthyOpt : Option Json → Bool
  | none => false
  | some v => jsTruthy v

/-- JS truthiness of a possibly-unset environment string. -/
def jsStrTruthy : Option String → Bool
  | none => false
  | some s => s != ""

/-- JS property read `value.key`: a named property of a non-object (or a
missing key) is `undefined`.  (`parseImageEdits` never returns `null`, the
one value whose member access would throw.) -/
def jsGet : Json → String → Option Json
  | .obj o, k => jsObjGet o k
  | _, _ => none

/-- Substring test on character lists (`String.prototype.includes`). -/
def charsContains (sub : List Char) : List Char → Bool
  | [] => charsIsPre sub []
  | c :: cs => charsIsPre sub (c :: cs) || charsContains sub cs

/-- JS `hay.includes(sub)`. -/
def jsIncludes (hay sub : String) : Bool :=
  charsContains sub.data hay.data

/-- `ImageRequest.getOutputFormat`: `AUTO_WEBP` truthy and an Accept header
containing `image/webp` force `'webp'`; otherwise a Default request returns
the `outputFormat` edit (possibly `undefined`), and other request types
`null` (both modelled as `none`). -/
def getOutputFormat (cfg : Config) (event : Event) (edits : Json)
    (requestType : String) : Option Json :=
  if jsStrTruthy cfg.AUTO_WEBP && jsStrTruthy event.headers.Accept &&
      jsIncludes ((event.headers.Accept).getD "") "image/webp" then
    some (.str "webp")
  else if requestType = "Default" then
    jsGet edits "outputFormat"
  else
    none

/-- The `acceptedValues` list of the quality-key fix in `setup`. -/
def acceptedQualityValues : List String := ["jpeg", "png", "webp", "tiff", "heif"]

/-- JS `Array.prototype.includes` against a structured value: the strict
comparison with a string list succeeds only for an equal string. -/
def includesJson (l : List String) : Json → Bool
  | .str s => l.contains s
  | _ => false

mutual

/-- JS string conversion `String(v)` as used by the template literal
`image/${this.outputFormat}`. -/
def jsDisplay : Json → String
  | .null => "null"
  | .bool true => "true"
  | .bool false => "false"
  | .num i => String.mk (intToChars i)
  | .str s => s
  | .arr xs => jsDisplayElems xs
  | .obj _ => "[object Object]"

/-- `Array.prototype.toString` = `join(',')`. -/
def jsDisplayElems : JsonArr → String
  | .nil => ""
  | .cons x .nil => jsDisplayItem x
  | .cons x tl => jsDisplayItem x ++ "," ++ jsDisplayElems tl

/-- A `null` element joins as the empty string; otherwise as `jsDisplay`. -/
def jsDisplayItem : Json → String
  | .null => ""
  | .bool true => "true"
  | .bool false => "false"
  | .num i => String.mk (intToChars i)
  | .str s => s
  | .arr xs => jsDisplayElems xs
  | .obj _ => "[object Object]"

end

/-- The quality-key normalization step of `ImageRequest.setup` (source lines
44–57, inner `if`): for a Custom/Thumbor request whose established output
format is one of the accepted codec names, the first codec-named key of
`edits` (if any, and if different from the format) has its value rewritten
under the format name and is then deleted.  `Object.keys` of a non-object has
no codec-named entries, so anything but an object is returned unchanged; the
codec lookup `this.edits[qualityKey]` always succeeds because `qualityKey` is
drawn from the key list. -/
def fixQuality (requestType : String) (outputFormat : Json) (edits : Json) : Json :=
  if (["Custom", "Thumbor"] : List String).contains requestType &&
      includesJson acceptedQualityValues outputFormat then
    match edits, outputFormat with
    | .obj o, .str fmt =>
      match (jsObjKeys o).filter (fun k => acceptedQualityValues.contains k) with
      | [] => .obj o
      | qualityKey :: _ =>
        if qualityKey = fmt then .obj o
        else .obj (jsObjDelete (jsObjSet o fmt ((jsObjGet o qualityKey).getD .null)) qualityKey)
    | e, _ => e
  else edits

/-- The descriptor assembled by a successful `ImageRequest.setup`: the fields
written on `this`. -/
structure Descriptor where
  requestType : String
  bucket : String
  key : String
  edits : Json
  originalImage : String
  ContentType : String
  CacheControl : String
  Expires : Option String
  LastModified : Option String
  outputFormat : Option Json
deriving DecidableEq

/-- `ImageRequest.setup`: the full pipeline.  `this.outputFormat` is written
only when a truthy value is available — `edits.toFormat` first, then the
`getOutputFormat` result — and when it is, the content type becomes
`image/${outputFormat}` and the quality-key fix runs on the edits. -/
def setup (cfg : Config) (rmatch : String → String → Bool)
    (s3 : String → String → Except S3Error S3Object) (toUTC : String → String)
    (event : Event) : Except JErr Descriptor :=
  let requestType := parseRequestType event
  match parseImageBucket rmatch cfg event requestType with
  | .error e => .error e
  | .ok bucket =>
  match parseImageKey cfg event requestType with
  | .error e => .error e
  | .ok key =>
  match parseImageEdits event requestType with
  | .error e => .error e
  | .ok edits =>
  match getOriginalImage s3 toUTC bucket key with
  | .error e => .error e
  | .ok orig =>
  let outputFormat0 := getOutputFormat cfg event edits requestType
  let outputFormat : Option Json :=
    if jsTruthy edits && jsTruthyOpt (jsGet edits "toFormat") then jsGet edits "toFormat"
    else if jsTruthyOpt outputFormat0 then outputFormat0
    else none
  match outputFormat with
  | some fmt =>
    .ok { requestType := requestType, bucket := bucket, key := key,
          edits := fixQuality requestType fmt edits,
          originalImage := orig.Body,
          ContentType := "image/" ++ jsDisplay fmt,
          CacheControl := orig.CacheControl,
          Expires := orig.Expires,
          LastModified := orig.LastModified,
          outputFormat := some fmt }
  | none =>
    .ok { requestType := requestType, bucket := bucket, key := key,
          edits := edits,
          originalImage := orig.Body,
          ContentType := orig.ContentType,
          CacheControl := orig.CacheControl,
          Expires := orig.Expires,
          LastModified := orig.LastModified,
          outputFormat := none }

/-! ### Derived views and fixtures for the assembly claims -/

/-- Number of codec-named (quality-bearing) keys of an edits value. -/
def codecKeyCount : Json → Nat
  | .obj o => ((jsObjKeys o).filter (fun k => acceptedQualityValues.contains k)).length
  | _ => 0

/-- The content-negotiation condition of `getOutputFormat`: `AUTO_WEBP` set
and truthy, and the Accept header present and containing `image/webp`. -/
def webpNegotiated (cfg : Config) (event : Event) : Bool :=
  jsStrTruthy cfg.AUTO_WEBP && jsStrTruthy event.headers.Accept &&
    jsIncludes ((event.headers.Accept).getD "") "image/webp"

/-- An S3 stub that always returns a bare body. -/
def s3ok : String → String → Except S3Error S3Object :=
  fun _ _ => .ok ⟨"B", none, none, none, none⟩

/-- A RegExp stub that never matches. -/
def rmFalse : String → String → Bool := fun _ _ => false

/-- Configuration for the output-format fixtures: no-op prefix pattern,
whitelist "alpha", `AUTO_WEBP` enabled. -/
def cfgC3 : Config := ⟨some "", some "alpha", some "1"⟩

/-- Request carrying base64-encoded edits `{"toFormat":""}` and an Accept
header advertising webp. -/
def evC3 : Event :=
  ⟨"/alpha/img.png",
   some ⟨some (String.mk (b64encode (utf8Encode (stringify
     (.obj (jsObjOfList [("toFormat", Json.str "")]))))))⟩,
   ⟨some "image/webp"⟩⟩

/-- The descriptor `setup` produces on `evC3`. -/
def dC3 : Descriptor :=
  ⟨"Default", "alpha", "alpha/img.png", .obj (jsObjOfList [("toFormat", Json.str "")]),
   "B", "image/webp", "max-age=31536000,public", none, none, some (Json.str "webp")⟩

/-- Configuration for the plain-pipeline fixture: whitelist "alpha", webp
negotiation off. -/
def cfgC10 : Config := ⟨some "", some "alpha", none⟩

/-- A plain request with no query parameters and no headers. -/
def evC10 : Event := ⟨"/alpha/k.png", none, ⟨none⟩⟩

/-- The descriptor `setup` produces on `evC10`. -/
def dC10 : Descriptor :=
  ⟨"Default", "alpha", "alpha/k.png", .obj .nil, "B", "image",
   "max-age=31536000,public", none, none, none⟩

/-- Request whose `edits` parameter decodes to no bytes at all (every
character is outside the base64 alphabet), so JSON parsing fails. -/
def evC5 : Event := ⟨"/alpha/k.png", some ⟨some "!!!!"⟩, ⟨none⟩⟩

/-- A concrete edits mapping with nested members and non-ASCII text. -/
def mC7 : JsonObj :=
  jsObjOfList [("resize", .obj (jsObjOfList [("width", Json.num 100), ("height", Json.num 50)])),
    ("grayscale", Json.bool true), ("note", Json.str "земля")]

/-- The quality fix is the identity for Default requests (the branch requires
a Custom or Thumbor request type). -/
theorem fixQuality_default (fmt e : Json) : fixQuality "Default" fmt e = e := by
  unfold fixQuality
  rw [show (["Custom", "Thumbor"] : List String).contains "Default" = false from by decide]
  simp

/-- Keys after a property write: unchanged when the key exists, appended
otherwise. -/
theorem jsObjKeys_set : ∀ (o : JsonObj) (k : String) (v : Json),
    jsObjKeys (jsObjSet o k v) =
      if jsObjHas o k then jsObjKeys o else jsObjKeys o ++ [k]
  | .nil, k, v => by simp [jsObjSet, jsObjKeys, jsObjHas]
  | .cons k2 w tl, k, v => by
    by_cases h : k2 = k
    · subst h
      simp [jsObjSet, jsObjKeys, jsObjHas]
    · have ih := jsObjKeys_set tl k v
      simp only [jsObjSet, if_neg h, jsObjKeys, jsObjHas, ih]
      rw [show (k2 == k) = false from by simp [h]]
      by_cases h2 : jsObjHas tl k = true
      · simp [h2]
      · simp [h2]

/-- Keys after a delete: every occurrence of the key is filtered out. -/
theorem jsObjKeys_delete : ∀ (o : JsonObj) (k : String),
    jsObjKeys (jsObjDelete o k) = (jsObjKeys o).filter (fun x => x != k)
  | .nil, k => rfl
  | .cons k2 w tl, k => by
    by_cases h : k2 = k
    · subst h
      simp [jsObjDelete, jsObjKeys, jsObjKeys_delete tl k2, List.filter_cons]
    · simp [jsObjDelete, h, jsObjKeys, jsObjKeys_delete tl k, List.filter_cons, bne]

/-- Reading back the key just written. -/
theorem jsObjGet_set_self : ∀ (o : JsonObj) (k : String) (v : Json),
    jsObjGet (jsObjSet o k v) k = some v
  | .nil, k, v => by simp [jsObjSet, jsObjGet]
  | .cons k2 w tl, k, v => by
    by_cases h : k2 = k
    · subst h
      simp [jsObjSet, jsObjGet]
    · simp [jsObjSet, jsObjGet, h, jsObjGet_set_self tl k v]

/-- Deleting one key does not affect reads of another. -/
theorem jsObjGet_delete_ne : ∀ (o : JsonObj) (k dk : String), k ≠ dk →
    jsObjGet (jsObjDelete o dk) k = jsObjGet o k
  | .nil, k, dk, _ => rfl
  | .cons k2 w tl, k, dk, h => by
    by_cases h2 : k2 = dk
    · subst h2
      simp [jsObjDelete, jsObjGet, jsObjGet_delete_ne tl k k2 h,
        show ¬(k2 = k) from fun hh => h (hh ▸ rfl)]
    · by_cases h3 : k2 = k
      · subst h3
        simp [jsObjDelete, h2, jsObjGet]
      · simp [jsObjDelete, h2, jsObjGet, h3, jsObjGet_delete_ne tl k dk h]

/-- A deleted key is gone. -/
theorem jsObjHas_delete_self : ∀ (o : JsonObj) (k : String),
    jsObjHas (jsObjDelete o k) k = false
  | .nil, k => rfl
  | .cons k2 w tl, k => by
    by_cases h : k2 = k
    · subst h
      simp [jsObjDelete]
      exact jsObjHas_delete_self tl k2
    · simp [jsObjDelete, h, jsObjHas, jsObjHas_delete_self tl k]

/-- Filtering on a conjunction keeps at most as many elements as filtering on
the left conjunct alone. -/
theorem filter_and_length_le (p q : String → Bool) : ∀ K : List String,
    (K.filter (fun x => p x && q x)).length ≤ (K.filter p).length
  | [] => le_refl _
  | a :: K => by
    have ih := filter_and_length_le p q K
    by_cases hp : p a = true
    · by_cases hq : q a = true
      · simp [List.filter_cons, hp, hq]
        exact ih
      · simp [List.filter_cons, hp, hq]
        omega
    · simp [List.filter_cons, hp]
      exact ih

/-- Additionally excluding an element that the left conjunct keeps and that
occurs in the list drops the count by at least one. -/
theorem filter_ne_length_lt (p : String → Bool) (qk : String) : ∀ K : List String,
    qk ∈ K → p qk = true →
    (K.filter (fun x => p x && x != qk)).length + 1 ≤ (K.filter p).length
  | [], hmem, _ => absurd hmem (List.not_mem_nil qk)
  | a :: K, hmem, hp => by
    by_cases ha : a = qk
    · subst ha
      have hb := filter_and_length_le p (fun x => x != a) K
      simp [List.filter_cons, hp]
      omega
    · have hmem2 : qk ∈ K := by
        rcases List.mem_cons.mp hmem with h | h
        · exact absurd h.symm ha
        · exact h
      have ih := filter_ne_length_lt p qk K hmem2 hp
      by_cases hpa : p a = true
      · simp [List.filter_cons, hpa, show (a != qk) = true from by simp [ha]]
        omega
      · simp [List.filter_cons, hpa]
        exact ih

/-- For a Default request, taking the `getOutputFormat` result when truthy is
the same as: webp when negotiated, else the `outputFormat` edit when truthy. -/
theorem getOutputFormat_default (cfg : Config) (event : Event) (e : Json) :
    (if jsTruthyOpt (getOutputFormat cfg event e "Default") then
       getOutputFormat cfg event e "Default"
     else none) =
      (if webpNegotiated cfg event then some (.str "webp")
       else if jsTruthyOpt (jsGet e "outputFormat") then jsGet e "outputFormat"
       else none) := by
  unfold getOutputFormat webpNegotiated
  by_cases h : (jsStrTruthy cfg.AUTO_WEBP && jsStrTruthy event.headers.Accept &&
      jsIncludes ((event.headers.Accept).getD "") "image/webp") = true
  · simp [h, jsTruthyOpt, jsTruthy]
  · simp [h]

/-- Inversion of a successful `setup` run: the stage results and the shape of
the final descriptor. -/
theorem setup_ok_inv (cfg : Config) (rmatch : String → String → Bool)
    (s3 : String → String → Except S3Error S3Object) (toUTC : String → String)
    (event : Event) (d : Descriptor) (h : setup cfg rmatch s3 toUTC event = .ok d) :
    ∃ bucket key edits orig,
      parseImageBucket rmatch cfg event "Default" = .ok bucket ∧
      parseImageKey cfg event "Default" = .ok key ∧
      parseImageEdits event "Default" = .ok edits ∧
      getOriginalImage s3 toUTC bucket key = .ok orig ∧
      ((∃ fmt,
          (if jsTruthy edits && jsTruthyOpt (jsGet edits "toFormat") then jsGet edits "toFormat"
           else if jsTruthyOpt (getOutputFormat cfg event edits "Default") then
             getOutputFormat cfg event edits "Default"
           else none) = some fmt ∧
          d = ⟨"Default", bucket, key, fixQuality "Default" fmt edits, orig.Body,
               "image/" ++ jsDisplay fmt, orig.CacheControl, orig.Expires,
               orig.LastModified, some fmt⟩) ∨
       ((if jsTruthy edits && jsTruthyOpt (jsGet edits "toFormat") then jsGet edits "toFormat"
         else if jsTruthyOpt (getOutputFormat cfg event edits "Default") then
           getOutputFormat cfg event edits "Default"
         else none) = none ∧
        d = ⟨"Default", bucket, key, edits, orig.Body, orig.ContentType,
             orig.CacheControl, orig.Expires, orig.LastModified, none⟩)) := by
  unfold setup parseRequestType at h
  simp only [] at h
  cases hb : parseImageBucket rmatch cfg event "Default" with
  | error e => rw [hb] at h; cases h
  | ok bucket =>
  rw [hb] at h
  simp only [] at h
  cases hk : parseImageKey cfg event "Default" with
  | error e => rw [hk] at h; cases h
  | ok key =>
  rw [hk] at h
  simp only [] at h
  cases he : parseImageEdits event "Default" with
  | error e => rw [he] at h; cases h
  | ok edits =>
  rw [he] at h
  simp only [] at h
  cases ho : getOriginalImage s3 toUTC bucket key with
  | error e => rw [ho] at h; cases h
  | ok orig =>
  rw [ho] at h
  simp only [] at h
  refine ⟨bucket, key, edits, orig, rfl, rfl, rfl, ho, ?_⟩
  cases hF : (if jsTruthy edits && jsTruthyOpt (jsGet edits "toFormat") then jsGet edits "toFormat"
      else if jsTruthyOpt (getOutputFormat cfg event edits "Default") then
        getOutputFormat cfg event edits "Default"
      else none) with
  | none =>
    rw [hF] at h
    cases h
    exact Or.inr ⟨rfl, rfl⟩
  | some fmt =>
    rw [hF] at h
    cases h
    exact Or.inl ⟨fmt, rfl, rfl⟩

/-- C6: every storage-fetch failure is rejected with status 404 exactly when
the underlying error code is `NoSuchKey` and 500 otherwise, the underlying
code and message being preserved unchanged. -/
theorem c6_fetch_error_mapping (s3 : String → String → Except S3Error S3Object)
    (toUTC : String → String) (bucket key : String) (e : S3Error)
    (h : s3 bucket key = .error e) :
    getOriginalImage s3 toUTC bucket key =
      .error ⟨if e.code = "NoSuchKey" then 404 else 500, e.code, e.message⟩ ∧
    (e.code = "NoSuchKey" →
      getOriginalImage s3 toUTC bucket key = .error ⟨404, e.code, e.message⟩) ∧
    (e.code ≠ "NoSuchKey" →
      getOriginalImage s3 toUTC bucket key = .error ⟨500, e.code, e.message⟩) := by
  have hg : getOriginalImage s3 toUTC bucket key =
      .error ⟨if e.code = "NoSuchKey" then 404 else 500, e.code, e.message⟩ := by
    unfold getOriginalImage
    rw [h]
  refine ⟨hg, ?_, ?_⟩
  · intro hc
    rw [hg, if_pos hc]
  · intro hc
    rw [hg, if_neg hc]

/-- C6, witness: a `NoSuchKey` failure maps to 404 and any other code to 500,
fields preserved. -/
theorem c6_witness :
    getOriginalImage (fun _ _ => .error ⟨"NoSuchKey", "missing"⟩) id "b" "k" =
      .error ⟨404, "NoSuchKey", "missing"⟩ ∧
    getOriginalImage (fun _ _ => .error ⟨"Throttled", "slow"⟩) id "b" "k" =
      .error ⟨500, "Throttled", "slow"⟩ := by
  refine ⟨?_, ?_⟩
  · exact (c6_fetch_error_mapping _ id "b" "k" ⟨"NoSuchKey", "missing"⟩ rfl).2.1 rfl
  · exact (c6_fetch_error_mapping _ id "b" "k" ⟨"Throttled", "slow"⟩ rfl).2.2 (by decide)

/-- C7: for every well-formed edits mapping, base64-encoding its JSON
serialization and passing it through the edits decoder returns exactly the
mapping, with the decoded top-level object itself being the edits set. -/
theorem c7_edits_roundtrip (m : JsonObj) (path : String) (hd : Headers)
    (hwf : jsonWfB (.obj m) = true) :
    parseImageEdits
      ⟨path, some ⟨some (String.mk (b64encode (utf8Encode (stringify (.obj m)))))⟩, hd⟩
      "Default" = .ok (.obj m) := by
  have hdec : decodeRequest (some (String.mk (b64encode (utf8Encode (stringify (.obj m)))))) =
      .ok (some (.obj m)) := by
    unfold decodeRequest
    simp only []
    rw [b64_roundtrip _ (utf8Encode_lt_256 _), utf8_roundtrip, jsonParse_stringify _ hwf]
  unfold parseImageEdits
  rw [if_pos rfl]
  simp only []
  rw [hdec]

/-- C7, witness: the round trip on a concrete nested mapping with non-ASCII
text. -/
theorem c7_witness :
    jsonWfB (.obj mC7) = true ∧
    parseImageEdits ⟨"/alpha/k.png", some ⟨some (String.mk (b64encode (utf8Encode
      (stringify (.obj mC7)))))⟩, ⟨none⟩⟩ "Default" = .ok (.obj mC7) :=
  ⟨by decide, c7_edits_roundtrip mC7 "/alpha/k.png" ⟨none⟩ (by decide)⟩

/-- C10: the classifier returns `'Default'` for every event, every successful
`setup` descriptor has requestType `'Default'` and edits identical to the
parsed edits, and the Custom/Thumbor-only rename is the identity at
`'Default'`. -/
theorem c10_request_type_default :
    (∀ event : Event, parseRequestType event = "Default") ∧
    (∀ (cfg : Config) (rmatch : String → String → Bool)
       (s3 : String → String → Except S3Error S3Object) (toUTC : String → String)
       (event : Event) (d : Descriptor),
       setup cfg rmatch s3 toUTC event = .ok d →
       d.requestType = "Default" ∧ parseImageEdits event "Default" = .ok d.edits ∧
       ∀ fmt, fixQuality "Default" fmt d.edits = d.edits) := by
  refine ⟨fun _ => rfl, ?_⟩
  intro cfg rmatch s3 toUTC event d h
  obtain ⟨bucket, key, edits, orig, hb, hk, he, ho, hcase⟩ :=
    setup_ok_inv cfg rmatch s3 toUTC event d h
  rcases hcase with ⟨fmt, hF, hd⟩ | ⟨hF, hd⟩
  · subst hd
    refine ⟨rfl, ?_, fun fmt2 => fixQuality_default fmt2 _⟩
    show parseImageEdits event "Default" = .ok (fixQuality "Default" fmt edits)
    rw [fixQuality_default]
    exact he
  · subst hd
    exact ⟨rfl, he, fun fmt2 => fixQuality_default fmt2 _⟩

/-- C10, witness: the concrete plain pipeline run. -/
theorem c10_witness :
    parseRequestType evC10 = "Default" ∧
    dC10.requestType = "Default" ∧ parseImageEdits evC10 "Default" = .ok dC10.edits := by
  have h := c10_request_type_default
  have h2 := h.2 cfgC10 rmFalse s3ok id evC10 dC10 (by decide)
  exact ⟨h.1 evC10, h2.1, h2.2.1⟩

/-- C5: a Default edits resolution fails (always with the 400 decode error)
exactly when the `edits` parameter is present and its base64-decoded payload
does not parse as JSON; an absent query-parameter mapping or an absent
`edits` parameter yields the empty mapping without error. -/
theorem c5_edits_parse_errors (event : Event) :
    (parseImageEdits event "Default" = .error cannotDecodeRequestErr ↔
       ∃ qsp s, event.queryStringParameters = some qsp ∧ qsp.edits = some s ∧
         jsonParse (utf8DecodeLossy (b64decode s.data)) = none) ∧
    (event.queryStringParameters = none →
       parseImageEdits event "Default" = .ok (.obj .nil)) ∧
    (∀ qsp, event.queryStringParameters = some qsp → qsp.edits = none →
       parseImageEdits event "Default" = .ok (.obj .nil)) ∧
    (∀ e, parseImageEdits event "Default" = .error e → e = cannotDecodeRequestErr) ∧
    cannotDecodeRequestErr.status = 400 := by
  have hD : parseImageEdits event "Default" =
      (match event.queryStringParameters with
       | none => .ok (.obj .nil)
       | some qsp =>
         match decodeRequest qsp.edits with
         | .error e => .error e
         | .ok none => .ok (.obj .nil)
         | .ok (some .null) => .ok (.obj .nil)
         | .ok (some v) => .ok v) := by
    unfold parseImageEdits
    rw [if_pos rfl]
  rcases hq : event.queryStringParameters with _ | qsp
  · rw [hq] at hD
    simp only [] at hD
    refine ⟨?_, fun _ => hD, ?_, ?_, rfl⟩
    · constructor
      · intro hc
        rw [hD] at hc
        cases hc
      · rintro ⟨qsp2, s2, hq2, -, -⟩
        cases hq2
    · intro qsp2 hq2
      cases hq2
    · intro e2 hc
      rw [hD] at hc
      cases hc
  · rw [hq] at hD
    simp only [] at hD
    rcases he : qsp.edits with _ | s
    · rw [he] at hD
      rw [show decodeRequest none = .ok none from rfl] at hD
      simp only [] at hD
      refine ⟨?_, ?_, fun qsp2 hq2 _ => hD, ?_, rfl⟩
      · constructor
        · intro hc
          rw [hD] at hc
          cases hc
        · rintro ⟨qsp2, s2, hq2, he2, -⟩
          cases hq2
          rw [he] at he2
          cases he2
      · intro hn
        cases hn
      · intro e2 hc
        rw [hD] at hc
        cases hc
    · rw [he] at hD
      rcases hp : jsonParse (utf8DecodeLossy (b64decode s.data)) with _ | v
      · rw [show decodeRequest (some s) = .error cannotDecodeRequestErr from by
          unfold decodeRequest; simp only []; rw [hp]] at hD
        simp only [] at hD
        refine ⟨⟨fun _ => ⟨qsp, s, rfl, he, hp⟩, fun _ => hD⟩, ?_, ?_, ?_, rfl⟩
        · intro hn
          cases hn
        · intro qsp2 hq2 he2
          cases hq2
          rw [he] at he2
          cases he2
        · intro e2 hc
          rw [hD] at hc
          cases hc
          rfl
      · rw [show decodeRequest (some s) = .ok (some v) from by
          unfold decodeRequest; simp only []; rw [hp]] at hD
        have hok : ∃ w, parseImageEdits event "Default" = .ok w := by
          cases v <;> simp only [] at hD <;> exact ⟨_, hD⟩
        obtain ⟨w, hw⟩ := hok
        refine ⟨?_, ?_, ?_, ?_, rfl⟩
        · constructor
          · intro hc
            rw [hw] at hc
            cases hc
          · rintro ⟨qsp2, s2, hq2, he2, hp2⟩
            cases hq2
            rw [he] at he2
            cases he2
            rw [hp] at hp2
            cases hp2
        · intro hn
          cases hn
        · intro qsp2 hq2 he2
          cases hq2
          rw [he] at he2
          cases he2
        · intro e2 hc
          rw [hw] at hc
          cases hc

/-- C5, witness: the undecodable payload "!!!!" errors with the 400 decode
error; a request with no query parameters resolves to the empty mapping. -/
theorem c5_witness :
    parseImageEdits evC5 "Default" = .error cannotDecodeRequestErr ∧
    parseImageEdits (evP "/alpha/k.png") "Default" = .ok (.obj .nil) := by
  constructor
  · exact (c5_edits_parse_errors evC5).1.mpr ⟨⟨some "!!!!"⟩, "!!!!", rfl, rfl, by decide⟩
  · exact (c5_edits_parse_errors (evP "/alpha/k.png")).2.1 rfl

/-- C3, counterexample: an `edits.toFormat` value that is present but falsy
(the empty string) does NOT win — with webp negotiation on, the final output
format is `webp`, not the present `toFormat` value.  The code tests
truthiness, not presence. -/
theorem c3_counterexample :
    parseImageEdits evC3 "Default" = .ok (.obj (jsObjOfList [("toFormat", Json.str "")])) ∧
    setup cfgC3 rmFalse s3ok id evC3 = .ok dC3 ∧
    dC3.outputFormat = some (Json.str "webp") ∧
    dC3.outputFormat ≠ some (Json.str "") := by
  exact ⟨by decide, by decide, rfl, by decide⟩

/-- C3 (amended: "present" must be "truthy"): the final output format of a
successful setup follows the precedence truthy `edits.toFormat`, then
negotiated webp, then a truthy `edits.outputFormat`; an established format
sets the content type to `image/<format>`. -/
theorem c3_output_format_precedence (cfg : Config) (rmatch : String → String → Bool)
    (s3 : String → String → Except S3Error S3Object) (toUTC : String → String)
    (event : Event) (d : Descriptor) (h : setup cfg rmatch s3 toUTC event = .ok d) :
    ∃ e, parseImageEdits event "Default" = .ok e ∧
      d.outputFormat =
        (if jsTruthy e && jsTruthyOpt (jsGet e "toFormat") then jsGet e "toFormat"
         else if webpNegotiated cfg event then some (.str "webp")
         else if jsTruthyOpt (jsGet e "outputFormat") then jsGet e "outputFormat"
         else none) ∧
      (∀ v, d.outputFormat = some v → d.ContentType = "image/" ++ jsDisplay v) := by
  obtain ⟨bucket, key, edits, orig, hb, hk, he, ho, hcase⟩ :=
    setup_ok_inv cfg rmatch s3 toUTC event d h
  have hEq : (if jsTruthy edits && jsTruthyOpt (jsGet edits "toFormat") then
        jsGet edits "toFormat"
      else if jsTruthyOpt (getOutputFormat cfg event edits "Default") then
        getOutputFormat cfg event edits "Default"
      else none) =
      (if jsTruthy edits && jsTruthyOpt (jsGet edits "toFormat") then jsGet edits "toFormat"
       else if webpNegotiated cfg event then some (.str "webp")
       else if jsTruthyOpt (jsGet edits "outputFormat") then jsGet edits "outputFormat"
       else none) := by
    by_cases hA : (jsTruthy edits && jsTruthyOpt (jsGet edits "toFormat")) = true
    · rw [if_pos hA, if_pos hA]
    · rw [if_neg hA, if_neg hA, getOutputFormat_default]
  rcases hcase with ⟨fmt, hF, hd⟩ | ⟨hF, hd⟩
  · subst hd
    refine ⟨edits, he, ?_, ?_⟩
    · rw [← hEq, hF]
    · intro v hv
      cases hv
      rfl
  · subst hd
    refine ⟨edits, he, ?_, ?_⟩
    · rw [← hEq, hF]
    · intro v hv
      cases hv

/-- C3, witness: the precedence equation on the concrete negotiated-webp
run. -/
theorem c3_witness :
    ∃ e, parseImageEdits evC3 "Default" = .ok e ∧
      dC3.outputFormat =
        (if jsTruthy e && jsTruthyOpt (jsGet e "toFormat") then jsGet e "toFormat"
         else if webpNegotiated cfgC3 evC3 then some (.str "webp")
         else if jsTruthyOpt (jsGet e "outputFormat") then jsGet e "outputFormat"
         else none) ∧
      (∀ v, dC3.outputFormat = some v → dC3.ContentType = "image/" ++ jsDisplay v) :=
  c3_output_format_precedence cfgC3 rmFalse s3ok id evC3 dC3 (by decide)

/-- C1, counterexample: with two codec keys present (`jpeg` and `png`) and
resolved format `webp`, the normalization leaves TWO codec-named keys
(`png` and the new `webp`) — the "at most one quality-bearing key" claim is
false. -/
theorem c1_counterexample :
    fixQuality "Custom" (.str "webp")
      (.obj (jsObjOfList [("jpeg", Json.num 80), ("png", Json.num 50)])) =
      .obj (jsObjOfList [("png", Json.num 50), ("webp", Json.num 80)]) ∧
    codecKeyCount (fixQuality "Custom" (.str "webp")
      (.obj (jsObjOfList [("jpeg", Json.num 80), ("png", Json.num 50)]))) = 2 := by
  exact ⟨by decide, by decide⟩

/-- C1 (amended): the normalization never increases the number of codec-named
keys (so at most one stays at most one), and the rename of the first codec
key is atomic — one step that deletes the stale key and writes its value
under the resolved format; but with several codec keys present the result can
still hold two codec keys, as the counterexample shows. -/
theorem c1_quality_rename (rt fmt : String) (o : JsonObj)
    (hrt : rt = "Custom" ∨ rt = "Thumbor")
    (hfmt : acceptedQualityValues.contains fmt = true) :
    codecKeyCount (fixQuality rt (.str fmt) (.obj o)) ≤ codecKeyCount (.obj o) ∧
    (codecKeyCount (.obj o) ≤ 1 → codecKeyCount (fixQuality rt (.str fmt) (.obj o)) ≤ 1) ∧
    (∀ qk rest,
       (jsObjKeys o).filter (fun k => acceptedQualityValues.contains k) = qk :: rest →
       qk ≠ fmt →
       fixQuality rt (.str fmt) (.obj o) =
         .obj (jsObjDelete (jsObjSet o fmt ((jsObjGet o qk).getD .null)) qk) ∧
       jsObjHas (jsObjDelete (jsObjSet o fmt ((jsObjGet o qk).getD .null)) qk) qk = false ∧
       jsObjGet (jsObjDelete (jsObjSet o fmt ((jsObjGet o qk).getD .null)) qk) fmt =
         some ((jsObjGet o qk).getD .null)) := by
  have hcond : ((["Custom", "Thumbor"] : List String).contains rt &&
      includesJson acceptedQualityValues (.str fmt)) = true := by
    rcases hrt with h | h <;> subst h <;> simp [includesJson] <;> simpa using hfmt
  have hfq : fixQuality rt (.str fmt) (.obj o) =
      (match (jsObjKeys o).filter (fun k => acceptedQualityValues.contains k) with
       | [] => .obj o
       | qualityKey :: _ =>
         if qualityKey = fmt then .obj o
         else .obj (jsObjDelete (jsObjSet o fmt ((jsObjGet o qualityKey).getD .null))
           qualityKey)) := by
    unfold fixQuality
    rw [hcond, if_pos rfl]
  cases hK : (jsObjKeys o).filter (fun k => acceptedQualityValues.contains k) with
  | nil =>
    rw [hK] at hfq
    simp only [] at hfq
    refine ⟨by rw [hfq], fun h1 => by rw [hfq]; exact h1, ?_⟩
    intro qk rest hqr hne
    cases hqr
  | cons qk0 rest0 =>
    rw [hK] at hfq
    simp only [] at hfq
    by_cases hq0 : qk0 = fmt
    · rw [if_pos hq0] at hfq
      refine ⟨by rw [hfq], fun h1 => by rw [hfq]; exact h1, ?_⟩
      intro qk rest hqr hne
      injection hqr with h1 h2
      exact absurd (h1 ▸ hq0) hne
    · rw [if_neg hq0] at hfq
      have hmem : qk0 ∈ (jsObjKeys o).filter (fun k => acceptedQualityValues.contains k) := by
        rw [hK]
        exact List.mem_cons_self _ _
      rw [List.mem_filter] at hmem
      obtain ⟨hmemK, hacc⟩ := hmem
      have hcount : codecKeyCount
          (.obj (jsObjDelete (jsObjSet o fmt ((jsObjGet o qk0).getD .null)) qk0)) ≤
          codecKeyCount (.obj o) := by
        simp only [codecKeyCount]
        rw [jsObjKeys_delete, List.filter_filter, jsObjKeys_set]
        by_cases hhas : jsObjHas o fmt = true
        · rw [if_pos hhas]
          exact filter_and_length_le _ _ _
        · rw [if_neg hhas, List.filter_append, List.length_append]
          have hne2 : ¬fmt = qk0 := fun hh => hq0 hh.symm
          have hm : fmt ∈ acceptedQualityValues := by simpa using hfmt
          have hfmtkeep : (List.filter
              (fun x => acceptedQualityValues.contains x && (x != qk0)) [fmt]).length = 1 := by
            simp [List.filter_cons, hne2, hm]
          rw [hfmtkeep]
          have hlt : (List.filter (fun x => acceptedQualityValues.contains x && (x != qk0))
              (jsObjKeys o)).length + 1 ≤
              (List.filter (fun k => acceptedQualityValues.contains k) (jsObjKeys o)).length :=
            filter_ne_length_lt (fun k => acceptedQualityValues.contains k) qk0
              (jsObjKeys o) hmemK hacc
          omega
      refine ⟨by rw [hfq]; exact hcount, fun h1 => by rw [hfq]; exact le_trans hcount h1, ?_⟩
      intro qk rest hqr hne
      injection hqr with h1 h2
      subst h1
      refine ⟨hfq, jsObjHas_delete_self _ _, ?_⟩
      rw [jsObjGet_delete_ne _ fmt qk0 (fun hh => hq0 hh.symm)]
      exact jsObjGet_set_self o fmt _

/-- C1, witness: a single `jpeg` quality key is atomically renamed to the
resolved `webp` format. -/
theorem c1_witness :
    codecKeyCount (fixQuality "Custom" (.str "webp")
      (.obj (jsObjOfList [("jpeg", Json.num 80)]))) ≤
      codecKeyCount (.obj (jsObjOfList [("jpeg", Json.num 80)])) ∧
    fixQuality "Custom" (.str "webp") (.obj (jsObjOfList [("jpeg", Json.num 80)])) =
      .obj (jsObjDelete (jsObjSet (jsObjOfList [("jpeg", Json.num 80)]) "webp"
        ((jsObjGet (jsObjOfList [("jpeg", Json.num 80)]) "jpeg").getD .null)) "jpeg") := by
  obtain ⟨h1, h2, h3⟩ := c1_quality_rename "Custom" "webp" (jsObjOfList [("jpeg", Json.num 80)])
    (Or.inl rfl) (by decide)
  exact ⟨h1, (h3 "jpeg" [] (by decide) (by decide)).1⟩
